import Mathlib

/-!
Verification of the `myproject` template libraries.

Shallow embedding of `templates/python-cpp/src/math_ops.cpp` (vector operations and the
dense row-major `Matrix`) and of `templates/cpp/src/core.cpp` and `calculator.cpp`, with
proofs of their contracts.

Modelling conventions:

* `double` is IEEE 754 binary64 with round-to-nearest, ties-to-even, every operation rounded
  on its own (`F64`).  All NaNs are one value.  Equality of doubles in the theorems is
  identity of the value; the IEEE comparisons are `F64.le` and `F64.eq`.
* `std::vector<double>` is `List F64`.  `operator[]` is unchecked in C++: an access outside
  the buffer is undefined behaviour and is the outcome `Outcome.undefined`.
* `size_t` is 64 bits wide: arithmetic on `size_t` values is taken modulo `SIZE_MOD`.
  A vector's `size()` always fits in `size_t`.
* A vector holds at most `VEC_MAX_SIZE` elements: creating or reserving a larger buffer throws
  `std::length_error`.  Within that bound memory allocation always succeeds, and `reserve`
  only changes capacity.
* A mutating call whose effect on a failure matters is a step returning the state of the
  object afterwards next to the outcome (`Matrix.at_assign_state`, `Calculator.divide`);
  the bodies whose statement order matters are sequences of statements on the object or
  call frame (`Stmt`).
-/

set_option maxRecDepth 20000

namespace myproject

/-- Model of the C++ type `double` (IEEE 754 binary64). A finite value is
`(-1)^neg * m * 2^e`; all NaNs are identified. -/
inductive F64 where
  | nan : F64
  | inf (neg : Bool) : F64
  | fin (neg : Bool) (m : Nat) (e : Int) : F64
  deriving DecidableEq, Repr

namespace F64

/-- Number of binary digits of `n`, by at most `fuel` halvings. -/
def bitLenGo : Nat → Nat → Nat
  | 0, _ => 0
  | fuel + 1, n => if n = 0 then 0 else bitLenGo fuel (n / 2) + 1

/-- Number of binary digits of `n` (`0` for `n = 0`). -/
def bitLen (n : Nat) : Nat := bitLenGo n n

/-- Shift `m` right by `s` bits, rounding to nearest, ties to even. -/
def roundShift (m s : Nat) : Nat :=
  let p := 1 <<< s
  let q := m / p
  let r := m % p
  if p < 2 * r ∨ (2 * r = p ∧ q % 2 = 1) then q + 1 else q

/-- Round the exact value `(-1)^neg * m * 2^e` to the nearest double, ties to even. -/
def round (neg : Bool) (m : Nat) (e : Int) : F64 :=
  if m = 0 then fin neg 0 (-1074) else
  let t : Int := max (e + (bitLen m : Nat) - 53) (-1074)
  let q : Nat := if t ≤ e then m <<< (e - t).toNat else roundShift m (t - e).toNat
  if q = 2 ^ 53 then (if 971 < t + 1 then inf neg else fin neg (2 ^ 52) (t + 1))
  else if 971 < t then inf neg else fin neg q t

def zero : F64 := fin false 0 (-1074)

def ofNat (n : Nat) : F64 := round false n 0

def add : F64 → F64 → F64
  | nan, _ => nan
  | _, nan => nan
  | inf s1, inf s2 => if s1 = s2 then inf s1 else nan
  | inf s1, fin _ _ _ => inf s1
  | fin _ _ _, inf s2 => inf s2
  | fin s1 m1 e1, fin s2 m2 e2 =>
    let e := min e1 e2
    let a := m1 <<< (e1 - e).toNat
    let b := m2 <<< (e2 - e).toNat
    if s1 = s2 then round s1 (a + b) e
    else if a = b then zero
    else if b < a then round s1 (a - b) e
    else round s2 (b - a) e

def mul : F64 → F64 → F64
  | nan, _ => nan
  | _, nan => nan
  | inf s1, inf s2 => inf (s1 != s2)
  | inf s1, fin s2 m2 _ => if m2 = 0 then nan else inf (s1 != s2)
  | fin s1 m1 _, inf s2 => if m1 = 0 then nan else inf (s1 != s2)
  | fin s1 m1 e1, fin s2 m2 e2 => round (s1 != s2) (m1 * m2) (e1 + e2)

def div : F64 → F64 → F64
  | nan, _ => nan
  | _, nan => nan
  | inf _, inf _ => nan
  | inf s1, fin s2 _ _ => inf (s1 != s2)
  | fin s1 _ _, inf s2 => fin (s1 != s2) 0 (-1074)
  | fin s1 m1 e1, fin s2 m2 e2 =>
    if m2 = 0 then (if m1 = 0 then nan else inf (s1 != s2))
    else
      let n := m1 * 2 ^ 128
      let q := n / m2
      let sticky := if n % m2 = 0 then 0 else 1
      round (s1 != s2) (2 * q + sticky) (e1 - e2 - 129)

/-- Integer square root, one result bit per step, from bit `b - 1` down to bit 0. -/
def isqrtGo (n : Nat) : Nat → Nat → Nat
  | 0, r => r
  | b + 1, r => isqrtGo n b (if (r + 2 ^ b) * (r + 2 ^ b) ≤ n then r + 2 ^ b else r)

def isqrt (n : Nat) : Nat := isqrtGo n (bitLen n / 2 + 1) 0

def sqrt : F64 → F64
  | nan => nan
  | inf s => if s then nan else inf false
  | fin s m e =>
    if m = 0 then fin s 0 (-1074)
    else if s then nan
    else
      let k : Nat := if e % 2 = 0 then 112 else 113
      let n := m * 2 ^ k
      let r := isqrt n
      let sticky := if r * r = n then 0 else 1
      round false (2 * r + sticky) ((e - k) / 2 - 1)

/-- The finite value `(-1)^neg * m * 2^e` scaled by `2^1074`: an integer for every double. -/
def scaled (neg : Bool) (m : Nat) (e : Int) : Int :=
  if neg then -((m <<< (e + 1074).toNat : Nat) : Int) else ((m <<< (e + 1074).toNat : Nat) : Int)

/-- IEEE comparison `x <= y`. -/
def le : F64 → F64 → Bool
  | nan, _ => false
  | _, nan => false
  | inf s1, inf s2 => s1 || !s2
  | inf s1, fin _ _ _ => s1
  | fin _ _ _, inf s2 => !s2
  | fin s1 m1 e1, fin s2 m2 e2 =>
    decide (scaled s1 m1 e1 ≤ scaled s2 m2 e2)

/-- IEEE comparison `x == y`. -/
def eq (x y : F64) : Bool := le x y && le y x

/-- Sign bit clear and not NaN: the value is `+0`, positive and finite, or `+inf`. -/
def nonneg : F64 → Prop
  | nan => False
  | inf s => s = false
  | fin s _ _ => s = false

/-- NaN, or a value with clear sign bit whose exponent field is in range from below:
the shape of every partial sum of squares. -/
def accum : F64 → Prop
  | nan => True
  | inf s => s = false
  | fin s _ e => s = false ∧ -1074 ≤ e

instance : Add F64 := ⟨add⟩
instance : Mul F64 := ⟨mul⟩
instance : Div F64 := ⟨div⟩

end F64

instance (n : Nat) : OfNat F64 n := ⟨F64.ofNat n⟩

/-- The exception classes that leave the library, with their `what()` message:
`invalid_argument` and `out_of_range` are thrown by the library itself, `length_error` by
`std::vector` when a buffer larger than `max_size()` is requested. -/
inductive Exn where
  | invalid_argument (what : String) : Exn
  | out_of_range (what : String) : Exn
  | length_error (what : String) : Exn
  deriving DecidableEq, Repr

/-- Outcome of a call: a returned value, a thrown exception, or undefined behaviour
(an unchecked access outside a buffer). -/
inductive Outcome (α : Type) where
  | ok (v : α) : Outcome α
  | thrown (e : Exn) : Outcome α
  | undefined : Outcome α
  deriving DecidableEq, Repr

namespace Outcome

/-- Sequencing: a thrown exception or undefined behaviour ends the computation. -/
def bind {α β : Type} : Outcome α → (α → Outcome β) → Outcome β
  | ok v, f => f v
  | thrown e, _ => thrown e
  | undefined, _ => undefined

instance : Monad Outcome where
  pure := Outcome.ok
  bind := Outcome.bind

end Outcome

/-- Number of values of the type `size_t`. -/
def SIZE_MOD : Nat := 2 ^ 64

/-- Value of `std::vector<double>::max_size()`: `PTRDIFF_MAX / sizeof(double)` with libstdc++
on a 64-bit target. -/
def VEC_MAX_SIZE : Nat := 2 ^ 60 - 1

/-- A sequence of statements running on a state `σ` (an object, or a call frame): the state
it leaves behind and its outcome.  An exception leaves the state reached when it was thrown. -/
def Stmt (σ α : Type) : Type := σ → σ × Outcome α

namespace Stmt

/-- The statement `return a` at the end of a sequence. -/
def ret {σ α : Type} (a : α) : Stmt σ α := fun s => (s, .ok a)

/-- Sequencing `x; f`: the rest runs on the state left by `x` and only if `x` returned. -/
def seq {σ α β : Type} (x : Stmt σ α) (f : α → Stmt σ β) : Stmt σ β := fun s =>
  match x s with
  | (s1, .ok a) => f a s1
  | (s1, .thrown e) => (s1, .thrown e)
  | (s1, .undefined) => (s1, .undefined)

/-- Read the current state. -/
def read {σ : Type} : Stmt σ σ := fun s => (s, .ok s)

/-- Store a new state. -/
def write {σ : Type} (s1 : σ) : Stmt σ Unit := fun _ => (s1, .ok ())

/-- The statement `throw e`. -/
def raise {σ α : Type} (e : Exn) : Stmt σ α := fun s => (s, .thrown e)

/-- An operation with undefined behaviour. -/
def undef {σ α : Type} : Stmt σ α := fun s => (s, .undefined)

/-- An expression without side effect on the state. -/
def lift {σ α : Type} (x : Outcome α) : Stmt σ α := fun s => (s, x)

instance {σ : Type} : Monad (Stmt σ) where
  pure := ret
  bind := seq

/-- The loop `for (size_t i = i0; i < i0 + k; ++i) body` as statements. -/
def loop {σ : Type} (body : Nat → Stmt σ Unit) : Nat → Nat → Stmt σ Unit
  | _, 0 => ret ()
  | i, k + 1 => seq (body i) (fun _ => loop body (i + 1) k)

end Stmt

/-- Read `v[i]` of a `std::vector<double>` (unchecked). -/
def vec_get (v : List F64) (i : Nat) : Outcome F64 :=
  match v[i]? with
  | some x => .ok x
  | none => .undefined

/-- Write `v[i] = x` of a `std::vector<double>` (unchecked). -/
def vec_set (v : List F64) (i : Nat) (x : F64) : Outcome (List F64) :=
  if i < v.length then .ok (v.set i x) else .undefined

/-- The loop `for (size_t i = i0; i < i0 + k; ++i) body`, threading the state `s`. -/
def for_loop {σ : Type} (body : Nat → σ → Outcome σ) : Nat → Nat → σ → Outcome σ
  | _, 0, s => .ok s
  | i, k + 1, s =>
    match body i s with
    | .ok s1 => for_loop body (i + 1) k s1
    | .thrown e => .thrown e
    | .undefined => .undefined

/-- Function `add_vectors` of math_ops.cpp. -/
def add_vectors (a b : List F64) : Outcome (List F64) :=
  if a.length ≠ b.length then
    .thrown (.invalid_argument "Vectors must have the same size")
  else
    for_loop (fun i result => do
        let x ← vec_get a i
        let y ← vec_get b i
        vec_set result i (x + y))
      0 a.length (List.replicate a.length F64.zero)

/-- Function `dot_product` of math_ops.cpp. -/
def dot_product (a b : List F64) : Outcome F64 :=
  if a.length ≠ b.length then
    .thrown (.invalid_argument "Vectors must have the same size")
  else
    for_loop (fun i result => do
        let x ← vec_get a i
        let y ← vec_get b i
        pure (result + x * y))
      0 a.length F64.zero

/-- Function `vector_norm` of math_ops.cpp: a range-for over `v`, then `std::sqrt`. -/
def vector_norm (v : List F64) : F64 :=
  F64.sqrt (v.foldl (fun sum_squares val => sum_squares + val * val) F64.zero)

/-- Class `Matrix` of math_ops.h: the three private fields. -/
structure Matrix where
  rows_ : Nat
  cols_ : Nat
  data_ : List F64
  deriving DecidableEq, Repr

namespace Matrix

/-- Accessor `rows()`. -/
def rows (m : Matrix) : Nat := m.rows_

/-- Accessor `cols()`. -/
def cols (m : Matrix) : Nat := m.cols_

/-- Shape invariant of the data model: the buffer holds exactly `rows * cols` elements
(and its size, like that of every vector, fits in `size_t`). -/
def shape_ok (m : Matrix) : Prop :=
  m.data_.length = m.rows_ * m.cols_ ∧ m.data_.length < SIZE_MOD

instance (m : Matrix) : Decidable m.shape_ok := by
  unfold shape_ok
  infer_instance

/-- The shape invariant with the bound every vector obeys: the buffer holds exactly
`rows * cols` elements and at most `max_size()` of them. -/
def well_formed (m : Matrix) : Prop :=
  m.data_.length = m.rows_ * m.cols_ ∧ m.data_.length ≤ VEC_MAX_SIZE

instance (m : Matrix) : Decidable m.well_formed := by
  unfold well_formed
  infer_instance

/-- The object that `Matrix(size_t rows, size_t cols)` initialises when the buffer
`data_(rows * cols, 0.0)` is created: `rows * cols` is a `size_t` product.  The constructor
with the failure of an oversized buffer is `ctor`. -/
def of_dims (rows cols : Nat) : Matrix :=
  { rows_ := rows, cols_ := cols, data_ := List.replicate ((rows * cols) % SIZE_MOD) F64.zero }

/-- Constructor `Matrix(size_t rows, size_t cols)`: the member initialiser
`data_(rows * cols, 0.0)` throws `std::length_error` when the `size_t` product exceeds
`max_size()`; otherwise the object is `of_dims rows cols`. -/
def ctor (rows cols : Nat) : Outcome Matrix :=
  if VEC_MAX_SIZE < (rows * cols) % SIZE_MOD then
    .thrown (.length_error "cannot create std::vector larger than max_size()")
  else .ok (of_dims rows cols)

/-- The range-for of the nested-row constructor: check each row, append it to `data_`. -/
def rows_loop (cols : Nat) : List (List F64) → List F64 → Outcome (List F64)
  | [], d => .ok d
  | row :: rest, d =>
    if row.length ≠ cols then
      .thrown (.invalid_argument "All rows must have the same size")
    else rows_loop cols rest (d ++ row)

/-- Constructor `Matrix(const std::vector<std::vector<double>>&)` once the reservation
`data_.reserve(rows_ * cols_)` of line 50 has succeeded (it changes capacity only): the
emptiness check, the fields and the range-for.  The constructor with the reservation is
`ctor_rows`. -/
def of_rows (data : List (List F64)) : Outcome Matrix :=
  match data with
  | [] => .thrown (.invalid_argument "Matrix cannot be empty")
  | row0 :: _ =>
    match rows_loop row0.length data [] with
    | .ok d => .ok { rows_ := data.length, cols_ := row0.length, data_ := d }
    | .thrown e => .thrown e
    | .undefined => .undefined

/-- The range-for of the nested-row constructor as statements on the object under
construction: `if (row.size() != cols_) throw ...; data_.insert(data_.end(), ...)`. -/
def rows_stmt : List (List F64) → Stmt Matrix Unit
  | [] => Stmt.ret ()
  | row :: rest => do
    let m ← Stmt.read
    if row.length ≠ m.cols_ then
      Stmt.raise (.invalid_argument "All rows must have the same size")
    else do
      Stmt.write { m with data_ := m.data_ ++ row }
      rows_stmt rest

/-- Body of `Matrix(const std::vector<std::vector<double>>&)`, statement by statement on the
object under construction: the emptiness check, `rows_ = data.size()`,
`cols_ = data[0].size()`, `data_.reserve(rows_ * cols_)` (which throws `std::length_error`
above `max_size()`), and the range-for. -/
def ctor_rows_stmt (data : List (List F64)) : Stmt Matrix Unit := do
  if data.isEmpty then
    Stmt.raise (.invalid_argument "Matrix cannot be empty")
  else do
    let m0 ← Stmt.read
    Stmt.write { m0 with rows_ := data.length }
    let m1 ← Stmt.read
    Stmt.write { m1 with cols_ := (data.headD []).length }
    let m2 ← Stmt.read
    if VEC_MAX_SIZE < (m2.rows_ * m2.cols_) % SIZE_MOD then
      Stmt.raise (.length_error "vector::reserve")
    else rows_stmt data

/-- The object under construction before the constructor body runs: `data_` is
default-constructed (empty); `rows_` and `cols_` are not read before they are assigned. -/
def fresh : Matrix := { rows_ := 0, cols_ := 0, data_ := [] }

/-- The expression `Matrix(data)`: the body runs on the fresh object; when it returns, that
object is the value; when it throws, the object under construction is destroyed and only the
exception leaves the expression. -/
def ctor_rows (data : List (List F64)) : Outcome Matrix :=
  match ctor_rows_stmt data fresh with
  | (m, .ok _) => .ok m
  | (_, .thrown e) => .thrown e
  | (_, .undefined) => .undefined

/-- Method `double at(size_t, size_t) const`. -/
def at_const (m : Matrix) (i j : Nat) : Outcome F64 :=
  if i ≥ m.rows_ ∨ j ≥ m.cols_ then
    .thrown (.out_of_range "Matrix index out of range")
  else vec_get m.data_ ((i * m.cols_ + j) % SIZE_MOD)

/-- Method `double& at(size_t, size_t)`: the returned reference is the offset into `data_`. -/
def at_ref (m : Matrix) (i j : Nat) : Outcome Nat :=
  if i ≥ m.rows_ ∨ j ≥ m.cols_ then
    .thrown (.out_of_range "Matrix index out of range")
  else if (i * m.cols_ + j) % SIZE_MOD < m.data_.length then
    .ok ((i * m.cols_ + j) % SIZE_MOD)
  else .undefined

/-- Indexed write `m.at(i, j) = v` through the reference returned by `at`. -/
def at_assign (m : Matrix) (i j : Nat) (v : F64) : Outcome Matrix :=
  match at_ref m i j with
  | .ok k => .ok { m with data_ := m.data_.set k v }
  | .thrown e => .thrown e
  | .undefined => .undefined

/-- The statement `m.at(i, j) = v` as a step on the object: the state of `m` afterwards and
the outcome.  The body of `at` only checks and returns the reference, so `m` is written
only by the assignment through a returned reference. -/
def at_assign_state (m : Matrix) (i j : Nat) (v : F64) : Matrix × Outcome Unit :=
  match at_ref m i j with
  | .ok k => ({ m with data_ := m.data_.set k v }, .ok ())
  | .thrown e => (m, .thrown e)
  | .undefined => (m, .undefined)

/-- Body of `double& Matrix::at(size_t i, size_t j)` as statements on the object. -/
def at_stmt (i j : Nat) : Stmt Matrix Nat := do
  let m ← Stmt.read
  if i ≥ m.rows_ ∨ j ≥ m.cols_ then
    Stmt.raise (.out_of_range "Matrix index out of range")
  else if (i * m.cols_ + j) % SIZE_MOD < m.data_.length then
    pure ((i * m.cols_ + j) % SIZE_MOD)
  else Stmt.undef

/-- The statement `m.at(i, j) = v`: the call of `at`, then the store through the returned
reference. -/
def assign_stmt (i j : Nat) (v : F64) : Stmt Matrix Unit := do
  let k ← at_stmt i j
  let m ← Stmt.read
  Stmt.write { m with data_ := m.data_.set k v }

/-- Method `operator+`; the local `Matrix result(rows_, cols_)` is built by `ctor`. -/
def operator_add (m other : Matrix) : Outcome Matrix :=
  if m.rows_ ≠ other.rows_ ∨ m.cols_ ≠ other.cols_ then
    .thrown (.invalid_argument "Matrices must have the same dimensions")
  else
    match ctor m.rows_ m.cols_ with
    | .ok result =>
      match for_loop (fun i d => do
          let x ← vec_get m.data_ i
          let y ← vec_get other.data_ i
          vec_set d i (x + y))
        0 m.data_.length result.data_ with
      | .ok d => .ok { result with data_ := d }
      | .thrown e => .thrown e
      | .undefined => .undefined
    | .thrown e => .thrown e
    | .undefined => .undefined

/-- Method `operator*` (scalar); the local `Matrix result(rows_, cols_)` is built by `ctor`. -/
def operator_mul (m : Matrix) (scalar : F64) : Outcome Matrix :=
  match ctor m.rows_ m.cols_ with
  | .ok result =>
    match for_loop (fun i d => do
        let x ← vec_get m.data_ i
        vec_set d i (x * scalar))
      0 m.data_.length result.data_ with
    | .ok d => .ok { result with data_ := d }
    | .thrown e => .thrown e
    | .undefined => .undefined
  | .thrown e => .thrown e
  | .undefined => .undefined

/-- Call frame of `a + b`: the object `*this`, the parameter `other`, and the local `result`,
absent until it is constructed. -/
structure AddFrame where
  self : Matrix
  other : Matrix
  result : Option Matrix
  deriving DecidableEq, Repr

/-- The loop body of `operator+`, `result.data_[i] = data_[i] + other.data_[i]`, on the call
frame. -/
def operator_add_body (i : Nat) : Stmt AddFrame Unit := do
  let g ← Stmt.read
  let x ← Stmt.lift (vec_get g.self.data_ i)
  let y ← Stmt.lift (vec_get g.other.data_ i)
  match g.result with
  | some res => do
    let d ← Stmt.lift (vec_set res.data_ i (x + y))
    Stmt.write { g with result := some { res with data_ := d } }
  | none => Stmt.undef

/-- Body of `operator+`, statement by statement on its call frame: the dimension check, the
construction of `result`, the loop over `i < data_.size()`, and `return result`. -/
def operator_add_stmt : Stmt AddFrame Matrix := do
  let f ← Stmt.read
  if f.self.rows_ ≠ f.other.rows_ ∨ f.self.cols_ ≠ f.other.cols_ then
    Stmt.raise (.invalid_argument "Matrices must have the same dimensions")
  else do
    let r ← Stmt.lift (ctor f.self.rows_ f.self.cols_)
    Stmt.write { f with result := some r }
    Stmt.loop operator_add_body 0 f.self.data_.length
    let g ← Stmt.read
    match g.result with
    | some res => pure res
    | none => Stmt.undef

/-- Method `to_vector`: a copy of the buffer. -/
def to_vector (m : Matrix) : List F64 := m.data_

end Matrix

/-! Standalone C++ template: `templates/cpp/src/core.cpp` and `calculator.cpp`. -/

/-- Function `add_numbers` of core.cpp. -/
def add_numbers (a b : F64) : F64 := a + b

/-- Algorithm `std::accumulate(first, last, init)`: `init = init + *first` for each element
in order. -/
def accumulate : List F64 → F64 → F64
  | [], init => init
  | x :: rest, init => accumulate rest (init + x)

/-- Function `calculate_mean` of core.cpp; `values.size()` is converted to `double` for the
division. -/
def calculate_mean (values : List F64) : F64 :=
  if values.isEmpty then F64.zero
  else
    let sum := accumulate values F64.zero
    sum / F64.ofNat values.length

/-- Class `Calculator` of calculator.h: the private field. -/
structure Calculator where
  value_ : F64
  deriving DecidableEq, Repr

namespace Calculator

/-- Method `add`; the returned reference is the updated calculator. -/
def add (c : Calculator) (x : F64) : Calculator := { value_ := c.value_ + x }

/-- Method `multiply`. -/
def multiply (c : Calculator) (x : F64) : Calculator := { value_ := c.value_ * x }

/-- Method `divide`: the state of the calculator afterwards, and the outcome (the calculator
designated by the returned reference `*this`).  `x == 0` is the IEEE comparison with the
converted literal. -/
def divide (c : Calculator) (x : F64) : Calculator × Outcome Calculator :=
  if F64.eq x 0 then (c, .thrown (.invalid_argument "Cannot divide by zero"))
  else ({ value_ := c.value_ / x }, .ok { value_ := c.value_ / x })

/-- Method `reset`. -/
def reset (_c : Calculator) : Calculator := { value_ := 0 }

/-- Method `result`. -/
def result (c : Calculator) : F64 := c.value_

end Calculator

/-! ## Basic facts about outcomes, vectors and loops -/

@[simp] theorem Outcome.bind_ok {α β : Type} (v : α) (f : α → Outcome β) :
    (Outcome.ok v >>= f) = f v := rfl

@[simp] theorem Outcome.bind_thrown {α β : Type} (e : Exn) (f : α → Outcome β) :
    (Outcome.thrown e >>= f) = Outcome.thrown e := rfl

@[simp] theorem Outcome.bind_undefined {α β : Type} (f : α → Outcome β) :
    (Outcome.undefined >>= f) = Outcome.undefined := rfl

@[simp] theorem Outcome.pure_eq {α : Type} (v : α) : (pure v : Outcome α) = Outcome.ok v := rfl

theorem vec_get_of_lt (v : List F64) (i : Nat) (h : i < v.length) :
    vec_get v i = .ok (v.get ⟨i, h⟩) := by
  simp [vec_get, List.getElem?_eq_getElem h]

theorem vec_get_eq_ok_iff (v : List F64) (i : Nat) (x : F64) :
    vec_get v i = .ok x ↔ v[i]? = some x := by
  unfold vec_get
  cases h : v[i]? <;> simp

/-- Invariant of the element-wise loop `result[i] = f(a[i], b[i])`: the iterations
`i0 .. i0 + k - 1` all stay inside the three buffers and rewrite exactly those slots. -/
theorem for_loop_zip (f : F64 → F64 → F64) (a b : List F64) :
    ∀ (k i0 : Nat) (s : List F64), i0 + k ≤ a.length → i0 + k ≤ b.length → i0 + k ≤ s.length →
      ∃ r, for_loop (fun i result => do
              let x ← vec_get a i
              let y ← vec_get b i
              vec_set result i (f x y)) i0 k s = .ok r
        ∧ r.length = s.length
        ∧ ∀ p, r[p]? = if i0 ≤ p ∧ p < i0 + k then (List.zipWith f a b)[p]? else s[p]? := by
  intro k
  induction k with
  | zero =>
    intro i0 s _ _ _
    refine ⟨s, rfl, rfl, fun p => ?_⟩
    have : ¬ (i0 ≤ p ∧ p < i0 + 0) := by omega
    rw [if_neg this]
  | succ k ih =>
    intro i0 s ha hb hs
    have hia : i0 < a.length := by omega
    have hib : i0 < b.length := by omega
    have his : i0 < s.length := by omega
    obtain ⟨r, hr, hlen, hget⟩ := ih (i0 + 1) (s.set i0 (f (a.get ⟨i0, hia⟩) (b.get ⟨i0, hib⟩)))
      (by omega) (by omega) (by simp; omega)
    refine ⟨r, ?_, ?_, fun p => ?_⟩
    · simp only [for_loop, vec_get_of_lt a i0 hia, vec_get_of_lt b i0 hib, Outcome.bind_ok,
        vec_set, his, if_true]
      exact hr
    · simpa using hlen
    · rw [hget p]
      by_cases h1 : i0 + 1 ≤ p ∧ p < i0 + 1 + k
      · have h2 : i0 ≤ p ∧ p < i0 + (k + 1) := by omega
        simp [h1, h2]
      · by_cases h3 : p = i0
        · subst h3
          have h2 : p ≤ p ∧ p < p + (k + 1) := by omega
          simp [h2, List.getElem?_zipWith, List.getElem?_eq_getElem hia,
            List.getElem?_eq_getElem hib, his]
        · have h2 : ¬ (i0 ≤ p ∧ p < i0 + (k + 1)) := by omega
          have h4 : ¬ (i0 = p) := fun h => h3 h.symm
          simp [h1, h2, List.getElem?_set, h4]

/-- A full element-wise loop over equal-length buffers computes `zipWith`. -/
theorem for_loop_zip_full (f : F64 → F64 → F64) (a b : List F64) (h : a.length = b.length) :
    for_loop (fun i result => do
        let x ← vec_get a i
        let y ← vec_get b i
        vec_set result i (f x y)) 0 a.length (List.replicate a.length F64.zero)
      = .ok (List.zipWith f a b) := by
  obtain ⟨r, hr, hlen, hget⟩ := for_loop_zip f a b a.length 0 (List.replicate a.length F64.zero)
    (by omega) (by omega) (by simp)
  rw [hr]
  congr 1
  apply List.ext_getElem?
  intro p
  rw [hget p]
  by_cases hp : p < a.length
  · simp [hp]
  · have h1 : ¬ (p < b.length) := by omega
    have h2 : a.length ≤ p := by omega
    simp [hp, List.getElem?_zipWith, List.getElem?_eq_none h2, h2]

theorem add_vectors_eq_zipWith (a b : List F64) (h : a.length = b.length) :
    add_vectors a b = .ok (List.zipWith (· + ·) a b) := by
  unfold add_vectors
  rw [if_neg (by simpa using h)]
  exact for_loop_zip_full (· + ·) a b h

theorem bool_bne_comm (s t : Bool) : (s != t) = (t != s) := by
  cases s <;> cases t <;> rfl

theorem F64.mul_comm (x y : F64) : x * y = y * x := by
  show F64.mul x y = F64.mul y x
  cases x <;> cases y <;>
    simp [F64.mul, Nat.mul_comm, Int.add_comm, bool_bne_comm]

theorem for_loop_dot (a b : List F64) :
    ∀ (k i0 : Nat) (acc : F64), i0 + k ≤ a.length → i0 + k ≤ b.length →
      for_loop (fun i result => do
          let x ← vec_get a i
          let y ← vec_get b i
          pure (result + x * y)) i0 k acc
        = .ok ((((List.zipWith (· * ·) a b).drop i0).take k).foldl (· + ·) acc) := by
  intro k
  induction k with
  | zero => intro i0 acc _ _; simp [for_loop]
  | succ k ih =>
    intro i0 acc ha hb
    have hia : i0 < a.length := by omega
    have hib : i0 < b.length := by omega
    have hz : i0 < (List.zipWith (· * ·) a b).length := by simp; omega
    simp only [for_loop, vec_get_of_lt a i0 hia, vec_get_of_lt b i0 hib, Outcome.bind_ok,
      Outcome.pure_eq]
    refine (ih (i0 + 1) _ (by omega) (by omega)).trans ?_
    rw [List.drop_eq_getElem_cons hz]
    simp

theorem dot_product_eq_foldl (a b : List F64) (h : a.length = b.length) :
    dot_product a b = .ok ((List.zipWith (· * ·) a b).foldl (· + ·) F64.zero) := by
  unfold dot_product
  rw [if_neg (by simpa using h)]
  refine (for_loop_dot a b a.length 0 F64.zero (by omega) (by omega)).trans ?_
  have hz : (List.zipWith (fun (x y : F64) => x * y) a b).length = a.length := by simp [h]
  rw [List.drop_zero, ← hz, List.take_length]

theorem F64.le_self (x : F64) (h : x ≠ F64.nan) : F64.le x x = true := by
  cases x with
  | nan => exact absurd rfl h
  | inf s => cases s <;> rfl
  | fin s m e => simp [F64.le]

theorem F64.eq_self (x : F64) (h : x ≠ F64.nan) : F64.eq x x = true := by
  simp [F64.eq, F64.le_self x h]

namespace F64

theorem bitLenGo_zero (fuel : Nat) : bitLenGo fuel 0 = 0 := by
  cases fuel <;> simp [bitLenGo]

/-- A nonzero number is at least the power of two of its top bit. -/
theorem pow_bitLenGo_le : ∀ (fuel n : Nat), n ≤ fuel → n ≠ 0 → 2 ^ (bitLenGo fuel n - 1) ≤ n := by
  intro fuel
  induction fuel with
  | zero => intro n h h0; omega
  | succ f ih =>
    intro n h h0
    simp only [bitLenGo, h0, if_false, Nat.add_sub_cancel]
    by_cases h2 : n / 2 = 0
    · rw [h2, bitLenGo_zero]
      simp
      omega
    · have h3 := ih (n / 2) (by omega) h2
      have h4 : 1 ≤ bitLenGo f (n / 2) := by
        cases f with
        | zero => omega
        | succ g => simp [bitLenGo, h2]
      have h5 : 2 ^ bitLenGo f (n / 2) = 2 * 2 ^ (bitLenGo f (n / 2) - 1) := by
        rw [← Nat.pow_succ']
        congr 1
        omega
      omega

theorem pow_bitLen_le (n : Nat) (h : n ≠ 0) : 2 ^ (bitLen n - 1) ≤ n :=
  pow_bitLenGo_le n n (le_refl n) h

theorem lt_pow_bitLenGo : ∀ (fuel n : Nat), n ≤ fuel → n < 2 ^ bitLenGo fuel n := by
  intro fuel
  induction fuel with
  | zero => intro n h; simp [bitLenGo]; omega
  | succ f ih =>
    intro n h
    by_cases h0 : n = 0
    · simp [bitLenGo, h0]
    · simp only [bitLenGo, h0, if_false]
      have h1 := ih (n / 2) (by omega)
      rw [Nat.pow_succ]
      omega

theorem lt_pow_bitLen (n : Nat) : n < 2 ^ bitLen n :=
  lt_pow_bitLenGo n n (le_refl n)

/-- Each step of the digit-by-digit square root keeps `r * r ≤ n < (r + 2^b) * (r + 2^b)`. -/
theorem isqrtGo_spec (n : Nat) :
    ∀ (b r : Nat), r * r ≤ n → n < (r + 2 ^ b) * (r + 2 ^ b) →
      isqrtGo n b r * isqrtGo n b r ≤ n ∧ n < (isqrtGo n b r + 1) * (isqrtGo n b r + 1) := by
  intro b
  induction b with
  | zero => intro r h1 h2; simpa [isqrtGo] using ⟨h1, h2⟩
  | succ b ih =>
    intro r h1 h2
    simp only [isqrtGo]
    have hp : 2 ^ (b + 1) = 2 ^ b + 2 ^ b := by rw [Nat.pow_succ]; omega
    split_ifs with h3
    · exact ih _ h3 (by rw [Nat.add_assoc, ← hp]; exact h2)
    · exact ih _ h1 (by omega)

/-- The model's `isqrt` is the integer square root. -/
theorem isqrt_spec (n : Nat) : isqrt n * isqrt n ≤ n ∧ n < (isqrt n + 1) * (isqrt n + 1) := by
  unfold isqrt
  apply isqrtGo_spec n _ 0 (by omega)
  have h1 := lt_pow_bitLen n
  have h2 : 2 ^ bitLen n ≤ 2 ^ (bitLen n / 2 + 1 + (bitLen n / 2 + 1)) :=
    Nat.pow_le_pow_right (by norm_num) (by omega)
  rw [Nat.pow_add] at h2
  simpa using lt_of_lt_of_le h1 h2

theorem le_roundShift (m s : Nat) : m / 2 ^ s ≤ roundShift m s := by
  unfold roundShift
  simp only [Nat.one_shiftLeft]
  split_ifs <;> omega

theorem round_core_cases (neg : Bool) (q : Nat) (t : Int) (ht : -1074 ≤ t) :
    (if q = 2 ^ 53 then (if 971 < t + 1 then inf neg else fin neg (2 ^ 52) (t + 1))
      else if 971 < t then inf neg else fin neg q t) = inf neg ∨
    ∃ q1 t1, (if q = 2 ^ 53 then (if 971 < t + 1 then inf neg else fin neg (2 ^ 52) (t + 1))
      else if 971 < t then inf neg else fin neg q t) = fin neg q1 t1 ∧ -1074 ≤ t1 ∧
      (q ≠ 0 → q1 ≠ 0) := by
  split_ifs
  · left; rfl
  · right; exact ⟨2 ^ 52, _, rfl, by omega, fun _ => by norm_num⟩
  · left; rfl
  · right; exact ⟨_, _, rfl, ht, fun h => h⟩

/-- Shape of a rounded result: the sign is kept, the exponent is at least `-1074`, and a
nonzero value whose exponent is at least `-1074` does not round to zero. -/
theorem round_cases (neg : Bool) (m : Nat) (e : Int) :
    round neg m e = inf neg ∨
      ∃ q t, round neg m e = fin neg q t ∧ -1074 ≤ t ∧ (m ≠ 0 → -1074 ≤ e → q ≠ 0) := by
  unfold round
  by_cases hm : m = 0
  · right
    exact ⟨0, -1074, by simp [hm], le_refl _, fun h => absurd hm h⟩
  · simp only [hm, if_false]
    have ht1 : (-1074 : Int) ≤ max (e + (bitLen m : Nat) - 53) (-1074) := le_max_right _ _
    have hq0 : -1074 ≤ e →
        (if max (e + (bitLen m : Nat) - 53) (-1074) ≤ e
          then m <<< (e - max (e + (bitLen m : Nat) - 53) (-1074)).toNat
          else roundShift m (max (e + (bitLen m : Nat) - 53) (-1074) - e).toNat) ≠ 0 := by
      intro he
      split_ifs with h1
      · rw [Nat.shiftLeft_eq]
        exact Nat.mul_ne_zero hm (by positivity)
      · have h2 : max (e + (bitLen m : Nat) - 53) (-1074) = e + (bitLen m : Nat) - 53 := by
          apply max_eq_left
          by_contra h3
          rw [max_eq_right (by omega)] at h1
          omega
        rw [h2] at h1 ⊢
        have h4 : (e + (bitLen m : Nat) - 53 - e).toNat = bitLen m - 53 := by omega
        rw [h4]
        have h5 := le_roundShift m (bitLen m - 53)
        have h6 := pow_bitLen_le m hm
        have h7 : 2 ^ (bitLen m - 53) ≤ 2 ^ (bitLen m - 1) :=
          Nat.pow_le_pow_right (by norm_num) (by omega)
        have h8 : 1 ≤ m / 2 ^ (bitLen m - 53) :=
          (Nat.one_le_div_iff (by positivity)).mpr (le_trans h7 h6)
        omega
    rcases round_core_cases neg _ _ ht1 with h | ⟨q1, t1, h, h1, h2⟩
    · left; exact h
    · right; exact ⟨q1, t1, h, h1, fun _ he => h2 (hq0 he)⟩

theorem ofNat_zero : (0 : F64) = zero := rfl

theorem add_def (x y : F64) : x + y = add x y := rfl

theorem mul_def (x y : F64) : x * y = mul x y := rfl

theorem scaled_zero (s : Bool) (e : Int) : scaled s 0 e = 0 := by
  cases s <;> simp [scaled]

theorem scaled_nonpos_iff (m : Nat) (e : Int) : scaled false m e ≤ 0 ↔ m = 0 := by
  simp only [scaled, Nat.shiftLeft_eq]
  constructor
  · intro h
    have h0 : ((m * 2 ^ (e + 1074).toNat : Nat) : Int) = 0 :=
      le_antisymm (by simpa using h) (Int.natCast_nonneg _)
    have h1 : m * 2 ^ (e + 1074).toNat = 0 := by exact_mod_cast h0
    rcases Nat.mul_eq_zero.mp h1 with h2 | h2
    · exact h2
    · exact absurd h2 (by positivity)
  · intro h
    simp [h]

theorem scaled_nonneg_iff (m : Nat) (e : Int) : 0 ≤ scaled true m e ↔ m = 0 := by
  simp only [scaled, Nat.shiftLeft_eq]
  constructor
  · intro h
    simp only [if_true] at h
    have h0 : ((m * 2 ^ (e + 1074).toNat : Nat) : Int) = 0 :=
      le_antisymm (by omega) (Int.natCast_nonneg _)
    have h1 : m * 2 ^ (e + 1074).toNat = 0 := by exact_mod_cast h0
    rcases Nat.mul_eq_zero.mp h1 with h2 | h2
    · exact h2
    · exact absurd h2 (by positivity)
  · intro h
    simp [h]

/-- The IEEE comparison with zero holds exactly for `+0` and `-0`. -/
theorem eq_zero_iff (x : F64) : F64.eq x 0 = true ↔ ∃ s e, x = fin s 0 e := by
  rw [ofNat_zero]
  cases x with
  | nan => simp [F64.eq, le, zero]
  | inf s => cases s <;> simp [F64.eq, le, zero]
  | fin s m e =>
    cases s
    · simp only [F64.eq, le, zero, scaled_zero, Bool.and_eq_true, decide_eq_true_eq,
        scaled_nonpos_iff]
      constructor
      · rintro ⟨h, _⟩
        exact ⟨false, e, by rw [h]⟩
      · rintro ⟨s, e1, h⟩
        injection h with _ h2 _
        subst h2
        exact ⟨rfl, by simp [scaled]⟩
    · simp only [F64.eq, le, zero, scaled_zero, Bool.and_eq_true, decide_eq_true_eq,
        scaled_nonneg_iff]
      constructor
      · rintro ⟨_, h⟩
        exact ⟨true, e, by rw [h]⟩
      · rintro ⟨s, e1, h⟩
        injection h with _ h2 _
        subst h2
        exact ⟨by simp [scaled], rfl⟩

theorem le_zero_of_nonneg (x : F64) (h : nonneg x) : le 0 x = true := by
  rw [ofNat_zero]
  cases x with
  | nan => exact absurd h id
  | inf s => simp only [nonneg] at h; subst h; rfl
  | fin s m e =>
    simp only [nonneg] at h
    subst h
    simp [le, zero, scaled_zero, scaled]

theorem round_nonneg (m : Nat) (e : Int) : nonneg (round false m e) := by
  rcases round_cases false m e with h | ⟨q, t, h, _, _⟩ <;> rw [h] <;> simp [nonneg]

theorem round_accum (m : Nat) (e : Int) : accum (round false m e) := by
  rcases round_cases false m e with h | ⟨q, t, h, h1, _⟩
  · rw [h]
    simp [accum]
  · rw [h]
    exact ⟨rfl, h1⟩

theorem round_eq_zero_inv (neg : Bool) (m : Nat) (e : Int) (he : -1074 ≤ e)
    (h : F64.eq (round neg m e) 0 = true) : m = 0 := by
  by_contra hm
  obtain ⟨s, e1, h1⟩ := (eq_zero_iff _).mp h
  rcases round_cases neg m e with h2 | ⟨q, t, h2, _, h3⟩
  · rw [h2] at h1
    exact F64.noConfusion h1
  · rw [h2] at h1
    injection h1 with _ h4 _
    exact h3 hm he h4

theorem mul_self_nonneg (x : F64) (h : x ≠ nan) : nonneg (x * x) := by
  cases x with
  | nan => exact absurd rfl h
  | inf s => cases s <;> simp [mul_def, mul, nonneg]
  | fin s m e =>
    have hs : (s != s) = false := by cases s <;> rfl
    simp only [mul_def, mul, hs]
    exact round_nonneg _ _

theorem mul_self_accum (x : F64) : accum (x * x) := by
  cases x with
  | nan => simp [mul_def, mul, accum]
  | inf s => cases s <;> simp [mul_def, mul, accum]
  | fin s m e =>
    have hs : (s != s) = false := by cases s <;> rfl
    simp only [mul_def, mul, hs]
    exact round_accum _ _

theorem add_nonneg (x y : F64) (hx : nonneg x) (hy : nonneg y) : nonneg (x + y) := by
  cases x with
  | nan => exact absurd hx id
  | inf s =>
    simp only [nonneg] at hx
    subst hx
    cases y with
    | nan => exact absurd hy id
    | inf s2 => simp only [nonneg] at hy; subst hy; simp [add_def, add, nonneg]
    | fin s2 m2 e2 => simp [add_def, add, nonneg]
  | fin s m e =>
    simp only [nonneg] at hx
    subst hx
    cases y with
    | nan => exact absurd hy id
    | inf s2 => simp only [nonneg] at hy; subst hy; simp [add_def, add, nonneg]
    | fin s2 m2 e2 =>
      simp only [nonneg] at hy
      subst hy
      simp only [add_def, add, if_true]
      exact round_nonneg _ _

theorem add_accum (x y : F64) (hx : accum x) (hy : accum y) : accum (x + y) := by
  cases x with
  | nan => simp [add_def, add, accum]
  | inf s =>
    simp only [accum] at hx
    subst hx
    cases y with
    | nan => simp [add_def, add, accum]
    | inf s2 => simp only [accum] at hy; subst hy; simp [add_def, add, accum]
    | fin s2 m2 e2 => simp [add_def, add, accum]
  | fin s m e =>
    simp only [accum] at hx
    obtain ⟨hs, _⟩ := hx
    subst hs
    cases y with
    | nan => simp [add_def, add, accum]
    | inf s2 => simp only [accum] at hy; subst hy; simp [add_def, add, accum]
    | fin s2 m2 e2 =>
      simp only [accum] at hy
      obtain ⟨hs2, _⟩ := hy
      subst hs2
      simp only [add_def, add, if_true]
      exact round_accum _ _

/-- A sum of two partial sums of squares is zero only if both are zero. -/
theorem add_eq_zero_inv (x y : F64) (hx : accum x) (hy : accum y)
    (h : F64.eq (x + y) 0 = true) : F64.eq x 0 = true ∧ F64.eq y 0 = true := by
  obtain ⟨s0, e0, h0⟩ := (eq_zero_iff _).mp h
  cases x with
  | nan => simp [add_def, add] at h0
  | inf s =>
    cases y with
    | nan => simp [add_def, add] at h0
    | inf s2 =>
      simp only [accum] at hx hy
      subst hx
      subst hy
      simp [add_def, add] at h0
    | fin s2 m2 e2 => simp [add_def, add] at h0
  | fin s m e =>
    cases y with
    | nan => simp [add_def, add] at h0
    | inf s2 => simp [add_def, add] at h0
    | fin s2 m2 e2 =>
      simp only [accum] at hx hy
      obtain ⟨hs, he⟩ := hx
      obtain ⟨hs2, he2⟩ := hy
      subst hs
      subst hs2
      simp only [add_def, add, if_true] at h
      have h1 := round_eq_zero_inv _ _ _ (le_min he he2) h
      simp only [Nat.shiftLeft_eq] at h1
      have h2 : m * 2 ^ (e - min e e2).toNat = 0 := by omega
      have h3 : m2 * 2 ^ (e2 - min e e2).toNat = 0 := by omega
      have h4 : m = 0 := by
        rcases Nat.mul_eq_zero.mp h2 with h5 | h5
        · exact h5
        · exact absurd h5 (by positivity)
      have h6 : m2 = 0 := by
        rcases Nat.mul_eq_zero.mp h3 with h5 | h5
        · exact h5
        · exact absurd h5 (by positivity)
      subst h4
      subst h6
      exact ⟨(eq_zero_iff _).mpr ⟨_, _, rfl⟩, (eq_zero_iff _).mpr ⟨_, _, rfl⟩⟩

theorem sqrt_nonneg (x : F64) (h : nonneg x) : nonneg (sqrt x) := by
  cases x with
  | nan => exact absurd h id
  | inf s => simp only [nonneg] at h; subst h; simp [sqrt, nonneg]
  | fin s m e =>
    simp only [nonneg] at h
    subst h
    by_cases hm : m = 0
    · simp [sqrt, hm, nonneg]
    · simp only [sqrt, hm, if_false, Bool.false_eq_true]
      exact round_nonneg _ _

/-- The square root of a partial sum of squares is zero only if the sum is zero. -/
theorem sqrt_eq_zero_inv (x : F64) (hx : accum x) (h : F64.eq (sqrt x) 0 = true) :
    F64.eq x 0 = true := by
  cases x with
  | nan => simp [sqrt, F64.eq, le] at h
  | inf s =>
    simp only [accum] at hx
    subst hx
    obtain ⟨s0, e0, h0⟩ := (eq_zero_iff _).mp h
    simp [sqrt] at h0
  | fin s m e =>
    simp only [accum] at hx
    obtain ⟨hs, he⟩ := hx
    subst hs
    by_cases hm : m = 0
    · subst hm
      exact (eq_zero_iff _).mpr ⟨_, _, rfl⟩
    · exfalso
      simp only [sqrt, hm, if_false, Bool.false_eq_true] at h
      have h1 := round_eq_zero_inv _ _ _ (by split_ifs <;> omega) h
      have h2 : isqrt (m * 2 ^ (if e % 2 = 0 then 112 else 113)) = 0 := by omega
      rw [h2] at h1
      have h3 : m * 2 ^ (if e % 2 = 0 then 112 else 113) ≠ 0 :=
        Nat.mul_ne_zero hm (by positivity)
      have h4 : ¬ (0 * 0 = m * 2 ^ (if e % 2 = 0 then 112 else 113)) := by
        intro h5
        exact h3 (by omega)
      rw [if_neg h4] at h1
      omega

end F64

/-! ### The sum of squares of `vector_norm` -/

theorem F64.accum_zero : F64.accum F64.zero := by
  simp [F64.accum, F64.zero]

theorem F64.nonneg_zero : F64.nonneg F64.zero := by
  simp [F64.nonneg, F64.zero]

theorem sum_squares_nonneg (v : List F64) :
    ∀ acc : F64, F64.nonneg acc → (∀ x ∈ v, x ≠ F64.nan) →
      F64.nonneg (v.foldl (fun sum_squares val => sum_squares + val * val) acc) := by
  induction v with
  | nil => intro acc h _; exact h
  | cons x xs ih =>
    intro acc h hv
    simp only [List.foldl_cons]
    exact ih _ (F64.add_nonneg _ _ h (F64.mul_self_nonneg x (hv x (List.mem_cons_self _ _))))
      (fun y hy => hv y (List.mem_cons_of_mem _ hy))

theorem sum_squares_accum (v : List F64) :
    ∀ acc : F64, F64.accum acc →
      F64.accum (v.foldl (fun sum_squares val => sum_squares + val * val) acc) := by
  induction v with
  | nil => intro acc h; exact h
  | cons x xs ih =>
    intro acc h
    simp only [List.foldl_cons]
    exact ih _ (F64.add_accum _ _ h (F64.mul_self_accum x))

theorem sum_squares_eq_zero_inv (v : List F64) :
    ∀ acc : F64, F64.accum acc →
      F64.eq (v.foldl (fun sum_squares val => sum_squares + val * val) acc) 0 = true →
      F64.eq acc 0 = true ∧ ∀ x ∈ v, F64.eq (x * x) 0 = true := by
  induction v with
  | nil => intro acc _ h; exact ⟨h, fun x hx => absurd hx (List.not_mem_nil x)⟩
  | cons x xs ih =>
    intro acc hacc h
    simp only [List.foldl_cons] at h
    obtain ⟨h1, h2⟩ := ih _ (F64.add_accum _ _ hacc (F64.mul_self_accum x)) h
    obtain ⟨h3, h4⟩ := F64.add_eq_zero_inv _ _ hacc (F64.mul_self_accum x) h1
    refine ⟨h3, fun y hy => ?_⟩
    rcases List.mem_cons.mp hy with h5 | h5
    · rw [h5]; exact h4
    · exact h2 y h5

theorem sum_squares_zero (v : List F64) (hv : ∀ x ∈ v, F64.eq x 0 = true) :
    v.foldl (fun sum_squares val => sum_squares + val * val) F64.zero = F64.zero := by
  induction v with
  | nil => rfl
  | cons x xs ih =>
    obtain ⟨s, e, hx⟩ := (F64.eq_zero_iff x).mp (hv x (List.mem_cons_self _ _))
    have h1 : F64.zero + x * x = F64.zero := by
      subst hx
      simp [F64.add_def, F64.mul_def, F64.mul, F64.add, F64.round, F64.zero]
    simp only [List.foldl_cons, h1]
    exact ih (fun y hy => hv y (List.mem_cons_of_mem _ hy))

theorem sum_squares_nan (v : List F64) :
    v.foldl (fun sum_squares val => sum_squares + val * val) F64.nan = F64.nan := by
  induction v with
  | nil => rfl
  | cons x xs ih =>
    simp only [List.foldl_cons]
    have h1 : F64.nan + x * x = F64.nan := by simp [F64.add_def, F64.add]
    rw [h1]
    exact ih

theorem sum_squares_of_nan_mem (v : List F64) (h : F64.nan ∈ v) :
    ∀ acc : F64, v.foldl (fun sum_squares val => sum_squares + val * val) acc = F64.nan := by
  induction v with
  | nil => exact absurd h (List.not_mem_nil _)
  | cons x xs ih =>
    intro acc
    simp only [List.foldl_cons]
    rcases List.mem_cons.mp h with h1 | h1
    · subst h1
      have h2 : acc + F64.nan * F64.nan = F64.nan := by
        cases acc <;> rfl
      rw [h2]
      exact sum_squares_nan xs
    · exact ih h1 _

/-! ### Matrix lemmas -/

theorem Matrix.rows_loop_eq (cols : Nat) (rows : List (List F64)) :
    ∀ d : List F64, Matrix.rows_loop cols rows d =
      if ∀ row ∈ rows, row.length = cols then .ok (d ++ rows.flatten)
      else .thrown (.invalid_argument "All rows must have the same size") := by
  induction rows with
  | nil => intro d; simp [Matrix.rows_loop]
  | cons row rest ih =>
    intro d
    by_cases h : row.length = cols
    · simp only [Matrix.rows_loop, h, ne_eq, not_true_eq_false, if_false, ih, List.mem_cons,
        forall_eq_or_imp, true_and, List.flatten_cons, List.append_assoc]
    · simp [Matrix.rows_loop, h]

theorem Matrix.of_rows_cons (row0 : List F64) (rest : List (List F64)) :
    Matrix.of_rows (row0 :: rest) =
      if ∀ row ∈ rest, row.length = row0.length then
        .ok { rows_ := rest.length + 1, cols_ := row0.length,
              data_ := (row0 :: rest).flatten }
      else .thrown (.invalid_argument "All rows must have the same size") := by
  simp only [Matrix.of_rows, Matrix.rows_loop_eq, List.mem_cons, forall_eq_or_imp, true_and,
    List.length_cons, List.nil_append]
  split_ifs <;> rfl

theorem index_lt_of_lt (rows cols i j : Nat) (hi : i < rows) (hj : j < cols) :
    i * cols + j < rows * cols := by
  have h1 : (i + 1) * cols ≤ rows * cols := Nat.mul_le_mul_right cols hi
  have h2 : (i + 1) * cols = i * cols + cols := by ring
  omega

/-- Row-major addressing of a flattened rectangular nested list. -/
theorem flatten_getElem_row_major (cols : Nat) (R : List (List F64)) :
    (∀ row ∈ R, row.length = cols) → ∀ (i j : Nat) (row : List F64), R[i]? = some row →
      j < cols → R.flatten[i * cols + j]? = row[j]? := by
  induction R with
  | nil => intro _ i j row h; simp at h
  | cons r rest ih =>
    intro hrect i j row h hj
    have hr : r.length = cols := hrect r (List.mem_cons_self _ _)
    cases i with
    | zero =>
      simp only [List.getElem?_cons_zero, Option.some.injEq] at h
      subst h
      simp only [Nat.zero_mul, Nat.zero_add, List.flatten_cons]
      rw [List.getElem?_append_left (by omega)]
    | succ i =>
      simp only [List.getElem?_cons_succ] at h
      have h1 : (i + 1) * cols + j = r.length + (i * cols + j) := by rw [hr]; ring
      rw [List.flatten_cons, h1, List.getElem?_append_right (by omega)]
      simp only [Nat.add_sub_cancel_left]
      exact ih (fun row hrow => hrect row (List.mem_cons_of_mem _ hrow)) i j row h hj

theorem length_flatten_rect (cols : Nat) (R : List (List F64)) :
    (∀ row ∈ R, row.length = cols) → R.flatten.length = R.length * cols := by
  induction R with
  | nil => intro _; simp
  | cons r rest ih =>
    intro h
    rw [List.flatten_cons, List.length_append, h r (List.mem_cons_self _ _),
      ih (fun row hrow => h row (List.mem_cons_of_mem _ hrow)), List.length_cons]
    ring

theorem Matrix.at_const_of_lt (m : Matrix) (i j : Nat) (hi : i < m.rows_) (hj : j < m.cols_) :
    m.at_const i j = vec_get m.data_ ((i * m.cols_ + j) % SIZE_MOD) := by
  have h : ¬ (i ≥ m.rows_ ∨ j ≥ m.cols_) := by omega
  simp [Matrix.at_const, h]

/-- With the shape invariant a checked offset is taken without wrap-around and lies inside
the buffer. -/
theorem Matrix.offset_of_shape_ok (m : Matrix) (h : m.shape_ok) (i j : Nat)
    (hi : i < m.rows_) (hj : j < m.cols_) :
    (i * m.cols_ + j) % SIZE_MOD = i * m.cols_ + j ∧ i * m.cols_ + j < m.data_.length := by
  obtain ⟨h1, h2⟩ := h
  have h3 := index_lt_of_lt m.rows_ m.cols_ i j hi hj
  exact ⟨Nat.mod_eq_of_lt (by omega), by omega⟩

theorem Matrix.well_formed.shape_ok {m : Matrix} (h : m.well_formed) : m.shape_ok :=
  ⟨h.1, lt_of_le_of_lt h.2 (by decide)⟩

theorem Matrix.ctor_of_le (r c : Nat) (h : r * c ≤ VEC_MAX_SIZE) :
    Matrix.ctor r c = .ok (Matrix.of_dims r c) := by
  have h1 : r * c < SIZE_MOD := lt_of_le_of_lt h (by decide)
  have h2 : ¬ (VEC_MAX_SIZE < (r * c) % SIZE_MOD) := by
    rw [Nat.mod_eq_of_lt h1]
    omega
  simp [Matrix.ctor, h2]

theorem Matrix.ctor_of_gt (r c : Nat) (h : VEC_MAX_SIZE < r * c) (h1 : r * c < SIZE_MOD) :
    Matrix.ctor r c
      = .thrown (.length_error "cannot create std::vector larger than max_size()") := by
  have h2 : VEC_MAX_SIZE < (r * c) % SIZE_MOD := by
    rw [Nat.mod_eq_of_lt h1]
    exact h
  simp [Matrix.ctor, h2]

theorem Matrix.operator_add_of_shape_ok (A B : Matrix) (hA : A.well_formed) (hB : B.well_formed)
    (hr : A.rows_ = B.rows_) (hc : A.cols_ = B.cols_) :
    A.operator_add B =
      .ok { rows_ := A.rows_, cols_ := A.cols_, data_ := List.zipWith (· + ·) A.data_ B.data_ } := by
  obtain ⟨hA1, hA2⟩ := hA
  obtain ⟨hB1, _⟩ := hB
  have hlen : A.data_.length = B.data_.length := by rw [hA1, hB1, hr, hc]
  have hA3 : A.rows_ * A.cols_ < SIZE_MOD := by
    rw [← hA1]
    exact lt_of_le_of_lt hA2 (by decide)
  have hmod : (A.rows_ * A.cols_) % SIZE_MOD = A.data_.length := by
    rw [← hA1]
    exact Nat.mod_eq_of_lt (hA1 ▸ hA3)
  have hne : ¬ (A.rows_ ≠ B.rows_ ∨ A.cols_ ≠ B.cols_) := by simp [hr, hc]
  simp only [Matrix.operator_add, hne, if_false, Matrix.ctor_of_le _ _ (hA1 ▸ hA2),
    Matrix.of_dims, hmod, for_loop_zip_full (· + ·) A.data_ B.data_ hlen]

/-- Invariant of the element-wise loop `result[i] = f(a[i])`. -/
theorem for_loop_map (f : F64 → F64) (a : List F64) :
    ∀ (k i0 : Nat) (s : List F64), i0 + k ≤ a.length → i0 + k ≤ s.length →
      ∃ r, for_loop (fun i result => do
              let x ← vec_get a i
              vec_set result i (f x)) i0 k s = .ok r
        ∧ r.length = s.length
        ∧ ∀ p, r[p]? = if i0 ≤ p ∧ p < i0 + k then (a.map f)[p]? else s[p]? := by
  intro k
  induction k with
  | zero =>
    intro i0 s _ _
    refine ⟨s, rfl, rfl, fun p => ?_⟩
    have : ¬ (i0 ≤ p ∧ p < i0 + 0) := by omega
    rw [if_neg this]
  | succ k ih =>
    intro i0 s ha hs
    have hia : i0 < a.length := by omega
    have his : i0 < s.length := by omega
    obtain ⟨r, hr, hlen, hget⟩ := ih (i0 + 1) (s.set i0 (f (a.get ⟨i0, hia⟩)))
      (by omega) (by simp; omega)
    refine ⟨r, ?_, ?_, fun p => ?_⟩
    · simp only [for_loop, vec_get_of_lt a i0 hia, Outcome.bind_ok, vec_set, his, if_true]
      exact hr
    · simpa using hlen
    · rw [hget p]
      by_cases h1 : i0 + 1 ≤ p ∧ p < i0 + 1 + k
      · have h2 : i0 ≤ p ∧ p < i0 + (k + 1) := by omega
        simp [h1, h2]
      · by_cases h3 : p = i0
        · subst h3
          have h2 : p ≤ p ∧ p < p + (k + 1) := by omega
          simp [h2, List.getElem?_eq_getElem hia, his]
        · have h2 : ¬ (i0 ≤ p ∧ p < i0 + (k + 1)) := by omega
          have h4 : ¬ (i0 = p) := fun h => h3 h.symm
          simp [h1, h2, List.getElem?_set, h4]

theorem for_loop_map_full (f : F64 → F64) (a : List F64) :
    for_loop (fun i result => do
        let x ← vec_get a i
        vec_set result i (f x)) 0 a.length (List.replicate a.length F64.zero)
      = .ok (a.map f) := by
  obtain ⟨r, hr, hlen, hget⟩ := for_loop_map f a a.length 0 (List.replicate a.length F64.zero)
    (by omega) (by simp)
  rw [hr]
  congr 1
  apply List.ext_getElem?
  intro p
  rw [hget p]
  by_cases hp : p < a.length
  · simp [hp]
  · have h2 : a.length ≤ p := by omega
    simp [hp, List.getElem?_eq_none h2, h2]

theorem Matrix.operator_mul_of_shape_ok (M : Matrix) (hM : M.well_formed) (k : F64) :
    M.operator_mul k =
      .ok { rows_ := M.rows_, cols_ := M.cols_, data_ := M.data_.map (fun x => x * k) } := by
  obtain ⟨h1, h2⟩ := hM
  have h3 : M.rows_ * M.cols_ < SIZE_MOD := by
    rw [← h1]
    exact lt_of_le_of_lt h2 (by decide)
  have hmod : (M.rows_ * M.cols_) % SIZE_MOD = M.data_.length := by
    rw [← h1]
    exact Nat.mod_eq_of_lt (h1 ▸ h3)
  simp only [Matrix.operator_mul, Matrix.ctor_of_le _ _ (h1 ▸ h2), Matrix.of_dims, hmod,
    for_loop_map_full (fun x => x * k) M.data_]

theorem Matrix.shape_ok_of_dims (r c : Nat) (h : r * c < SIZE_MOD) :
    (Matrix.of_dims r c).shape_ok := by
  simp [Matrix.shape_ok, Matrix.of_dims, Nat.mod_eq_of_lt h, h]

theorem Matrix.shape_ok_add (A B : Matrix) (hA : A.well_formed) :
    Matrix.well_formed
      { rows_ := A.rows_, cols_ := A.cols_, data_ := List.zipWith (· + ·) A.data_ B.data_ }
      ↔ A.data_.length ≤ B.data_.length := by
  obtain ⟨h1, h2⟩ := hA
  simp only [Matrix.well_formed, List.length_zipWith]
  constructor
  · rintro ⟨h3, _⟩
    omega
  · intro h3
    rw [Nat.min_eq_left h3]
    exact ⟨h1, h2⟩

theorem Matrix.shape_ok_map (M : Matrix) (hM : M.well_formed) (f : F64 → F64) :
    Matrix.well_formed { rows_ := M.rows_, cols_ := M.cols_, data_ := M.data_.map f } := by
  obtain ⟨h1, h2⟩ := hM
  simp only [Matrix.well_formed, List.length_map]
  exact ⟨h1, h2⟩

/-- Distinct index pairs inside the shape have distinct row-major offsets. -/
theorem offset_injective (cols i j i1 j1 : Nat) (hj : j < cols) (hj1 : j1 < cols)
    (h : i * cols + j = i1 * cols + j1) : i = i1 ∧ j = j1 := by
  have hi : i = i1 := by
    rcases Nat.lt_trichotomy i i1 with h1 | h1 | h1
    · have h2 : (i + 1) * cols ≤ i1 * cols := Nat.mul_le_mul_right cols h1
      have h3 : (i + 1) * cols = i * cols + cols := by ring
      omega
    · exact h1
    · have h2 : (i1 + 1) * cols ≤ i * cols := Nat.mul_le_mul_right cols h1
      have h3 : (i1 + 1) * cols = i1 * cols + cols := by ring
      omega
  subst hi
  exact ⟨rfl, by omega⟩

theorem Matrix.at_assign_of_shape_ok (M : Matrix) (hM : M.shape_ok) (i j : Nat)
    (hi : i < M.rows_) (hj : j < M.cols_) (v : F64) :
    M.at_assign i j v = .ok { M with data_ := M.data_.set (i * M.cols_ + j) v } := by
  obtain ⟨h1, h2⟩ := Matrix.offset_of_shape_ok M hM i j hi hj
  have h : ¬ (i ≥ M.rows_ ∨ j ≥ M.cols_) := by omega
  simp [Matrix.at_assign, Matrix.at_ref, h, h1, h2]

theorem accumulate_eq_foldl (values : List F64) :
    ∀ init : F64, accumulate values init = values.foldl (· + ·) init := by
  induction values with
  | nil => intro init; rfl
  | cons x rest ih => intro init; simp [accumulate, ih]

/-! ### Doubling: `x + x` and `2 * x` round the same exact value -/

namespace F64

theorem bitLen_pos (n : Nat) (h : n ≠ 0) : 1 ≤ bitLen n := by
  have h1 := lt_pow_bitLen n
  by_contra h2
  have h3 : bitLen n = 0 := by omega
  rw [h3] at h1
  simp at h1
  exact h h1

theorem bitLen_unique (n b : Nat) (h0 : n ≠ 0) (h1 : 2 ^ (b - 1) ≤ n) (h2 : n < 2 ^ b) :
    bitLen n = b := by
  have h3 := pow_bitLen_le n h0
  have h4 := lt_pow_bitLen n
  have h5 := bitLen_pos n h0
  have hb : 1 ≤ b := by
    by_contra h6
    have h7 : b = 0 := by omega
    rw [h7] at h2
    simp at h2
    exact h0 h2
  rcases Nat.lt_trichotomy (bitLen n) b with h6 | h6 | h6
  · have h7 : 2 ^ bitLen n ≤ 2 ^ (b - 1) := Nat.pow_le_pow_right (by norm_num) (by omega)
    omega
  · exact h6
  · have h7 : 2 ^ b ≤ 2 ^ (bitLen n - 1) := Nat.pow_le_pow_right (by norm_num) (by omega)
    omega

theorem bitLen_mul_pow (m k : Nat) (h : m ≠ 0) : bitLen (m * 2 ^ k) = bitLen m + k := by
  have h1 := pow_bitLen_le m h
  have h2 := lt_pow_bitLen m
  have h3 := bitLen_pos m h
  apply bitLen_unique
  · exact Nat.mul_ne_zero h (by positivity)
  · have h4 : bitLen m + k - 1 = (bitLen m - 1) + k := by omega
    rw [h4, Nat.pow_add]
    exact Nat.mul_le_mul_right _ h1
  · rw [Nat.pow_add]
    exact Nat.mul_lt_mul_of_pos_right h2 (by positivity)

theorem roundShift_mul_pow (x s : Nat) : roundShift (x * 2 ^ s) s = x := by
  unfold roundShift
  simp only [Nat.one_shiftLeft]
  have hp : 0 < 2 ^ s := by positivity
  have h1 : x * 2 ^ s / 2 ^ s = x := Nat.mul_div_cancel x hp
  have h2 : x * 2 ^ s % 2 ^ s = 0 := Nat.mul_mod_left x (2 ^ s)
  rw [h1, h2]
  have h3 : ¬ (2 ^ s < 2 * 0 ∨ 2 * 0 = 2 ^ s ∧ x % 2 = 1) := by
    rintro (h | ⟨h, _⟩) <;> omega
  rw [if_neg h3]

theorem roundShift_scale (m s k : Nat) : roundShift (m * 2 ^ k) (s + k) = roundShift m s := by
  unfold roundShift
  simp only [Nat.one_shiftLeft]
  have hk : 0 < 2 ^ k := by positivity
  have h1 : m * 2 ^ k / 2 ^ (s + k) = m / 2 ^ s := by
    rw [Nat.pow_add]
    exact Nat.mul_div_mul_right m (2 ^ s) hk
  have h2 : m * 2 ^ k % 2 ^ (s + k) = m % 2 ^ s * 2 ^ k := by
    rw [Nat.pow_add]
    exact Nat.mul_mod_mul_right (2 ^ k) m (2 ^ s)
  rw [h1, h2]
  have h3 : (2 ^ (s + k) < 2 * (m % 2 ^ s * 2 ^ k)) ↔ (2 ^ s < 2 * (m % 2 ^ s)) := by
    rw [Nat.pow_add, ← Nat.mul_assoc]
    exact Nat.mul_lt_mul_right hk
  have h4 : (2 * (m % 2 ^ s * 2 ^ k) = 2 ^ (s + k)) ↔ (2 * (m % 2 ^ s) = 2 ^ s) := by
    rw [Nat.pow_add, ← Nat.mul_assoc]
    exact Nat.mul_left_inj (by omega)
  simp only [h3, h4]

/-- Rounding depends on the exact value only: a power of two may move between the
significand and the exponent. -/
theorem round_scale (neg : Bool) (m k : Nat) (e : Int) :
    round neg (m * 2 ^ k) (e - k) = round neg m e := by
  by_cases hm : m = 0
  · subst hm
    simp [round]
  · have hm2 : m * 2 ^ k ≠ 0 := Nat.mul_ne_zero hm (by positivity)
    unfold round
    simp only [hm, hm2, if_false, bitLen_mul_pow m k hm]
    have ht : e - (k : Int) + ((bitLen m + k : Nat) : Int) - 53 = e + (bitLen m : Nat) - 53 := by
      push_cast
      ring
    rw [ht]
    generalize max (e + (bitLen m : Nat) - 53) (-1074) = t
    have hq : (if t ≤ e - (k : Int) then (m * 2 ^ k) <<< (e - k - t).toNat
          else roundShift (m * 2 ^ k) (t - (e - k)).toNat)
        = (if t ≤ e then m <<< (e - t).toNat else roundShift m (t - e).toNat) := by
      by_cases h1 : t ≤ e - (k : Int)
      · have h2 : t ≤ e := by omega
        rw [if_pos h1, if_pos h2, Nat.shiftLeft_eq, Nat.shiftLeft_eq, Nat.mul_assoc,
          ← Nat.pow_add]
        congr 2
        omega
      · rw [if_neg h1]
        by_cases h2 : t ≤ e
        · rw [if_pos h2, Nat.shiftLeft_eq]
          have h3 : k = (e - t).toNat + (t - (e - k)).toNat := by omega
          have h4 : m * 2 ^ k = m * 2 ^ (e - t).toNat * 2 ^ (t - (e - k)).toNat := by
            rw [Nat.mul_assoc, ← Nat.pow_add, ← h3]
          rw [h4]
          exact roundShift_mul_pow _ _
        · rw [if_neg h2]
          have h3 : (t - (e - k)).toNat = (t - e).toNat + k := by omega
          rw [h3]
          exact roundShift_scale _ _ _
    rw [hq]

theorem ofNat_two : (2 : F64) = fin false (2 ^ 52) (-51) := by decide

/-- Adding a double to itself is multiplying it by `2.0`. -/
theorem add_self_eq_two_mul (x : F64) : x + x = 2 * x := by
  rw [ofNat_two, add_def, mul_def]
  cases x with
  | nan => rfl
  | inf s => cases s <;> simp [add, mul]
  | fin s m e =>
    have hs : (false != s) = s := by cases s <;> rfl
    simp only [add, mul, if_true, min_self, sub_self, Int.toNat_zero, Nat.shiftLeft_eq,
      pow_zero, mul_one, hs]
    have h1 : 2 ^ 52 * m = (m + m) * 2 ^ 51 := by ring
    have h2 : (-51 : Int) + e = e - ((51 : Nat) : Int) := by push_cast; ring
    rw [h1, h2, round_scale]

end F64

/-! ### The shape invariant on dimensions whose product does not wrap -/

theorem Matrix.shape_ok_of_rows (R : List (List F64)) (M : Matrix)
    (h : Matrix.of_rows R = .ok M) (hfit : R.flatten.length < SIZE_MOD) : M.shape_ok := by
  cases R with
  | nil => exact Outcome.noConfusion h
  | cons row0 rest =>
    rw [Matrix.of_rows_cons] at h
    by_cases hrect : ∀ row ∈ rest, row.length = row0.length
    · rw [if_pos hrect] at h
      injection h with h1
      subst h1
      have h2 : ∀ row ∈ row0 :: rest, row.length = row0.length := by
        intro row hrow
        rcases List.mem_cons.mp hrow with h3 | h3
        · rw [h3]
        · exact hrect row h3
      exact ⟨by simpa using length_flatten_rect row0.length (row0 :: rest) h2, hfit⟩
    · rw [if_neg hrect] at h
      exact Outcome.noConfusion h

theorem Matrix.shape_ok_at_assign (M M1 : Matrix) (i j : Nat) (v : F64) (hM : M.shape_ok)
    (h : M.at_assign i j v = .ok M1) : M1.shape_ok := by
  unfold Matrix.at_assign Matrix.at_ref at h
  split_ifs at h
  injection h with h1
  subst h1
  simpa [Matrix.shape_ok] using hM

theorem Matrix.shape_ok_operator_add (A B C : Matrix) (hA : A.well_formed) (hB : B.well_formed)
    (h : A.operator_add B = .ok C) : C.well_formed := by
  by_cases hd : A.rows_ ≠ B.rows_ ∨ A.cols_ ≠ B.cols_
  · simp [Matrix.operator_add, hd] at h
  · have hr : A.rows_ = B.rows_ := by
      by_contra h1
      exact hd (Or.inl h1)
    have hc : A.cols_ = B.cols_ := by
      by_contra h1
      exact hd (Or.inr h1)
    rw [Matrix.operator_add_of_shape_ok A B hA hB hr hc] at h
    injection h with h1
    subst h1
    exact (Matrix.shape_ok_add A B hA).mpr (by rw [hA.1, hB.1, hr, hc])

theorem Matrix.shape_ok_operator_mul (M S : Matrix) (k : F64) (hM : M.well_formed)
    (h : M.operator_mul k = .ok S) : S.well_formed := by
  rw [Matrix.operator_mul_of_shape_ok M hM k] at h
  injection h with h1
  subst h1
  exact Matrix.shape_ok_map M hM _

/-- On a matrix with `data.length = rows * cols` the sum `M + M` has the entries `2 * M.at(i, j)`. -/
theorem Matrix.operator_add_self (M : Matrix) (hM : M.well_formed) :
    ∃ S, M.operator_add M = .ok S ∧ S.rows = M.rows ∧ S.cols = M.cols ∧
      ∀ i j, i < M.rows → j < M.cols →
        ∃ x, M.at_const i j = .ok x ∧ S.at_const i j = .ok (2 * x) := by
  refine ⟨_, Matrix.operator_add_of_shape_ok M M hM hM rfl rfl, rfl, rfl, ?_⟩
  intro i j hi hj
  simp only [Matrix.rows, Matrix.cols] at hi hj
  obtain ⟨h1, h2⟩ := Matrix.offset_of_shape_ok M hM.shape_ok i j hi hj
  refine ⟨M.data_.get ⟨i * M.cols_ + j, h2⟩, ?_, ?_⟩
  · rw [Matrix.at_const_of_lt M i j hi hj, h1]
    exact vec_get_of_lt _ _ h2
  · rw [Matrix.at_const_of_lt
      { rows_ := M.rows_, cols_ := M.cols_, data_ := List.zipWith (· + ·) M.data_ M.data_ }
      i j hi hj]
    simp only [h1]
    rw [vec_get_eq_ok_iff, List.getElem?_zipWith, List.getElem?_eq_getElem h2]
    simp only [Option.some.injEq]
    exact F64.add_self_eq_two_mul _


/-- After the reservation, the nested-row constructor throws "Matrix cannot be empty" exactly
when `R` has no rows, throws "All rows must have the same size" exactly when some row is not
as long as the first row, and succeeds in every other case. -/
theorem of_rows_failure_modes (R : List (List F64)) :
    (Matrix.of_rows R = .thrown (.invalid_argument "Matrix cannot be empty") ↔ R = []) ∧
    (Matrix.of_rows R = .thrown (.invalid_argument "All rows must have the same size")
        ↔ ∃ row ∈ R, row.length ≠ (R.headD []).length) ∧
    ((∃ M, Matrix.of_rows R = .ok M) ↔ R ≠ [] ∧ ∀ row ∈ R, row.length = (R.headD []).length) := by
  cases R with
  | nil => simp [Matrix.of_rows]
  | cons row0 rest =>
    rw [Matrix.of_rows_cons]
    by_cases h : ∀ row ∈ rest, row.length = row0.length
    · rw [if_pos h]
      refine ⟨by simp, ?_, ?_⟩
      · constructor
        · intro h1
          exact Outcome.noConfusion h1
        · rintro ⟨row, hrow, hne⟩
          rcases List.mem_cons.mp hrow with h2 | h2
          · subst h2
            exact absurd rfl hne
          · exact absurd (h row h2) hne
      · constructor
        · intro _
          refine ⟨by simp, fun row hrow => ?_⟩
          rcases List.mem_cons.mp hrow with h2 | h2
          · subst h2
            rfl
          · exact h row h2
        · intro _
          exact ⟨_, rfl⟩
    · rw [if_neg h]
      refine ⟨by simp, ?_, ?_⟩
      · constructor
        · intro _
          by_contra h2
          exact h (fun row hrow => by
            by_contra h3
            exact h2 ⟨row, List.mem_cons_of_mem _ hrow, h3⟩)
        · intro _
          rfl
      · constructor
        · rintro ⟨M, hM⟩
          exact Outcome.noConfusion hM
        · rintro ⟨_, h2⟩
          exact absurd (fun row hrow => h2 row (List.mem_cons_of_mem _ hrow)) h

/-- On well-formed operands `A + B` throws `std::invalid_argument` exactly when the shapes
differ; otherwise the result has the shape of `A` and its entry `(i, j)` is
`A.at(i, j) + B.at(i, j)`. -/
theorem operator_add_elementwise (A B : Matrix) (hA : A.well_formed) (hB : B.well_formed) :
    (A.operator_add B = .thrown (.invalid_argument "Matrices must have the same dimensions")
        ↔ (A.rows ≠ B.rows ∨ A.cols ≠ B.cols)) ∧
    (A.rows = B.rows → A.cols = B.cols →
      ∃ C, A.operator_add B = .ok C ∧ C.rows = A.rows ∧ C.cols = A.cols ∧
        ∀ i j, i < A.rows → j < A.cols →
          ∃ x y, A.at_const i j = .ok x ∧ B.at_const i j = .ok y ∧
            C.at_const i j = .ok (x + y)) := by
  simp only [Matrix.rows, Matrix.cols]
  constructor
  · by_cases h : A.rows_ ≠ B.rows_ ∨ A.cols_ ≠ B.cols_
    · simp [Matrix.operator_add, h]
    · have hr : A.rows_ = B.rows_ := by
        by_contra h1
        exact h (Or.inl h1)
      have hc : A.cols_ = B.cols_ := by
        by_contra h1
        exact h (Or.inr h1)
      rw [Matrix.operator_add_of_shape_ok A B hA hB hr hc]
      simp [h]
  · intro hr hc
    refine ⟨_, Matrix.operator_add_of_shape_ok A B hA hB hr hc, rfl, rfl, ?_⟩
    intro i j hi hj
    obtain ⟨hA1, hA2⟩ := Matrix.offset_of_shape_ok A hA.shape_ok i j hi hj
    obtain ⟨hB1, hB2⟩ := Matrix.offset_of_shape_ok B hB.shape_ok i j (hr ▸ hi) (hc ▸ hj)
    refine ⟨A.data_.get ⟨i * A.cols_ + j, hA2⟩, B.data_.get ⟨i * B.cols_ + j, hB2⟩, ?_, ?_, ?_⟩
    · rw [Matrix.at_const_of_lt A i j hi hj, hA1]
      exact vec_get_of_lt _ _ hA2
    · rw [Matrix.at_const_of_lt B i j (hr ▸ hi) (hc ▸ hj), hB1]
      exact vec_get_of_lt _ _ hB2
    · rw [Matrix.at_const_of_lt
        { rows_ := A.rows_, cols_ := A.cols_, data_ := List.zipWith (· + ·) A.data_ B.data_ }
        i j hi hj]
      simp only [hA1]
      rw [vec_get_eq_ok_iff, List.getElem?_zipWith, List.getElem?_eq_getElem hA2]
      have hB3 : i * A.cols_ + j < B.data_.length := by rw [hc]; exact hB2
      rw [List.getElem?_eq_getElem hB3]
      simp [hc]

/-- For a well-formed matrix `M` and every scalar `k`, `M * k` returns a matrix of the same
shape whose entry `(i, j)` is `M.at(i, j) * k`. -/
theorem operator_mul_elementwise (M : Matrix) (hM : M.well_formed) (k : F64) :
    ∃ S, M.operator_mul k = .ok S ∧ S.rows = M.rows ∧ S.cols = M.cols ∧
      ∀ i j, i < M.rows → j < M.cols →
        ∃ x, M.at_const i j = .ok x ∧ S.at_const i j = .ok (x * k) := by
  refine ⟨_, Matrix.operator_mul_of_shape_ok M hM k, rfl, rfl, ?_⟩
  intro i j hi hj
  simp only [Matrix.rows, Matrix.cols] at hi hj
  obtain ⟨h1, h2⟩ := Matrix.offset_of_shape_ok M hM.shape_ok i j hi hj
  refine ⟨M.data_.get ⟨i * M.cols_ + j, h2⟩, ?_, ?_⟩
  · rw [Matrix.at_const_of_lt M i j hi hj, h1]
    exact vec_get_of_lt _ _ h2
  · rw [Matrix.at_const_of_lt
      { rows_ := M.rows_, cols_ := M.cols_, data_ := M.data_.map (fun x => x * k) } i j hi hj]
    simp only [h1]
    rw [vec_get_eq_ok_iff, List.getElem?_map, List.getElem?_eq_getElem h2]
    rfl

/-- When the product does not wrap (`r * c < 2^64`), zero included, the object `of_dims r c`
has `rows() = r`, `cols() = c` and `at(i, j) = 0.0` for all `i < r`, `j < c`. -/
theorem of_dims_zero_filled (r c : Nat) (h : r * c < SIZE_MOD) :
    (Matrix.of_dims r c).rows = r ∧ (Matrix.of_dims r c).cols = c ∧
    (∀ i j, i < r → j < c → (Matrix.of_dims r c).at_const i j = .ok F64.zero) ∧
    Matrix.of_rows [] = .thrown (.invalid_argument "Matrix cannot be empty") := by
  refine ⟨rfl, rfl, ?_, rfl⟩
  intro i j hi hj
  obtain ⟨h1, h2⟩ := Matrix.offset_of_shape_ok _ (Matrix.shape_ok_of_dims r c h) i j hi hj
  rw [Matrix.at_const_of_lt _ i j hi hj, h1, vec_get_eq_ok_iff]
  simp only [Matrix.of_dims, List.length_replicate] at h2 ⊢
  rw [List.getElem?_replicate, if_pos h2]

/-! ### Statement-level bodies and their functional form -/

@[simp] theorem Stmt.bind_eq_seq {σ α β : Type} (x : Stmt σ α) (f : α → Stmt σ β) :
    (x >>= f) = Stmt.seq x f := rfl

@[simp] theorem Stmt.pure_eq_ret {σ α : Type} (a : α) : (pure a : Stmt σ α) = Stmt.ret a := rfl

/-- Outcome of the range-for on the object under construction, and the object it leaves when
every row passes. -/
theorem Matrix.rows_stmt_eq (rows : List (List F64)) :
    ∀ m : Matrix,
      (Matrix.rows_stmt rows m).2 =
        (match Matrix.rows_loop m.cols_ rows m.data_ with
          | .ok _ => .ok ()
          | .thrown e => .thrown e
          | .undefined => .undefined) ∧
      ∀ d, Matrix.rows_loop m.cols_ rows m.data_ = .ok d →
        (Matrix.rows_stmt rows m).1 = { m with data_ := d } := by
  induction rows with
  | nil =>
    intro m
    refine ⟨rfl, fun d h => ?_⟩
    simp only [Matrix.rows_loop, Outcome.ok.injEq] at h
    subst h
    rfl
  | cons row rest ih =>
    intro m
    by_cases h : row.length = m.cols_
    · have h1 := ih { m with data_ := m.data_ ++ row }
      simp only [Matrix.rows_stmt, Matrix.rows_loop, h, ne_eq, not_true_eq_false, if_false,
        Stmt.bind_eq_seq, Stmt.seq, Stmt.read, Stmt.write]
      exact h1
    · simp [Matrix.rows_stmt, Matrix.rows_loop, h, Stmt.seq, Stmt.read, Stmt.raise]

/-- The nested-row constructor: empty input is rejected, then the reservation may throw
`std::length_error`, then the checks and the copy of `of_rows` run. -/
theorem Matrix.ctor_rows_eq (R : List (List F64)) :
    Matrix.ctor_rows R =
      if R = [] then .thrown (.invalid_argument "Matrix cannot be empty")
      else if VEC_MAX_SIZE < (R.length * (R.headD []).length) % SIZE_MOD then
        .thrown (.length_error "vector::reserve")
      else Matrix.of_rows R := by
  cases R with
  | nil => rfl
  | cons row0 rest =>
    simp only [Matrix.ctor_rows, Matrix.ctor_rows_stmt, List.isEmpty_cons, Bool.false_eq_true,
      if_false, Stmt.bind_eq_seq, Stmt.seq, Stmt.read, Stmt.write, Matrix.fresh,
      List.headD_cons, reduceCtorEq]
    by_cases h : VEC_MAX_SIZE < ((row0 :: rest).length * row0.length) % SIZE_MOD
    · simp only [h, if_true, Stmt.raise]
    · simp only [h, if_false]
      obtain ⟨h1, h2⟩ := Matrix.rows_stmt_eq (row0 :: rest)
        { rows_ := (row0 :: rest).length, cols_ := row0.length, data_ := [] }
      simp only [Matrix.of_rows]
      cases hl : Matrix.rows_loop row0.length (row0 :: rest) [] with
      | ok d =>
        have h3 := h2 d hl
        rw [hl] at h1
        generalize Matrix.rows_stmt (row0 :: rest)
          { rows_ := (row0 :: rest).length, cols_ := row0.length, data_ := [] } = p at h1 h3
        obtain ⟨s, o⟩ := p
        simp only at h1 h3
        subst h1
        subst h3
        rfl
      | thrown e =>
        rw [hl] at h1
        generalize Matrix.rows_stmt (row0 :: rest)
          { rows_ := (row0 :: rest).length, cols_ := row0.length, data_ := [] } = p at h1
        obtain ⟨s, o⟩ := p
        simp only at h1
        subst h1
        rfl
      | undefined =>
        rw [hl] at h1
        generalize Matrix.rows_stmt (row0 :: rest)
          { rows_ := (row0 :: rest).length, cols_ := row0.length, data_ := [] } = p at h1
        obtain ⟨s, o⟩ := p
        simp only at h1
        subst h1
        rfl

theorem Matrix.assign_stmt_eq (M : Matrix) (i j : Nat) (v : F64) :
    Matrix.assign_stmt i j v M = M.at_assign_state i j v := by
  simp only [Matrix.assign_stmt, Matrix.at_stmt, Matrix.at_assign_state, Matrix.at_ref,
    Stmt.bind_eq_seq, Stmt.pure_eq_ret, Stmt.seq, Stmt.read]
  split_ifs <;> rfl

/-- One iteration of the loop of `operator+` on a frame whose `result` is constructed, next
to the same iteration of the functional loop on the buffer of `result`. -/
theorem Matrix.operator_add_body_eq (f : AddFrame) (res : Matrix) (i : Nat)
    (hres : f.result = some res) :
    Matrix.operator_add_body i f =
      (match (do
          let x ← vec_get f.self.data_ i
          let y ← vec_get f.other.data_ i
          vec_set res.data_ i (x + y) : Outcome (List F64)) with
        | .ok d => ({ f with result := some { res with data_ := d } }, .ok ())
        | .thrown e => (f, .thrown e)
        | .undefined => (f, .undefined)) := by
  simp only [Matrix.operator_add_body, Stmt.bind_eq_seq, Stmt.seq, Stmt.read, Stmt.lift, hres]
  cases vec_get f.self.data_ i with
  | ok x =>
    cases vec_get f.other.data_ i with
    | ok y =>
      simp only [Outcome.bind_ok]
      cases vec_set res.data_ i (x + y) <;> rfl
    | thrown e => rfl
    | undefined => rfl
  | thrown e => rfl
  | undefined => rfl

/-- The loop of `operator+` never writes the operands. -/
theorem Matrix.operator_add_loop_frame :
    ∀ (k i : Nat) (f : AddFrame),
      (Stmt.loop Matrix.operator_add_body i k f).1.self = f.self ∧
      (Stmt.loop Matrix.operator_add_body i k f).1.other = f.other := by
  intro k
  induction k with
  | zero => intro i f; exact ⟨rfl, rfl⟩
  | succ k ih =>
    intro i f
    simp only [Stmt.loop, Stmt.seq]
    cases hres : f.result with
    | none =>
      have h1 : Matrix.operator_add_body i f = (f, .undefined) ∨
          ∃ e, Matrix.operator_add_body i f = (f, .thrown e) := by
        simp only [Matrix.operator_add_body, Stmt.bind_eq_seq, Stmt.seq, Stmt.read, Stmt.lift,
          hres, Stmt.undef]
        cases vec_get f.self.data_ i with
        | ok x =>
          cases vec_get f.other.data_ i with
          | ok y => left; rfl
          | thrown e => right; exact ⟨e, rfl⟩
          | undefined => left; rfl
        | thrown e => right; exact ⟨e, rfl⟩
        | undefined => left; rfl
      rcases h1 with h1 | ⟨e, h1⟩ <;> rw [h1] <;> exact ⟨rfl, rfl⟩
    | some res =>
      rw [Matrix.operator_add_body_eq f res i hres]
      cases (do
          let x ← vec_get f.self.data_ i
          let y ← vec_get f.other.data_ i
          vec_set res.data_ i (x + y) : Outcome (List F64)) with
      | ok d => exact ih (i + 1) _
      | thrown e => exact ⟨rfl, rfl⟩
      | undefined => exact ⟨rfl, rfl⟩

/-- The statements of `operator+` leave both operands as they were, whatever the outcome. -/
theorem Matrix.operator_add_stmt_frame (A B : Matrix) :
    (Matrix.operator_add_stmt ⟨A, B, none⟩).1.self = A ∧
    (Matrix.operator_add_stmt ⟨A, B, none⟩).1.other = B := by
  unfold Matrix.operator_add_stmt
  simp only [Stmt.bind_eq_seq, Stmt.pure_eq_ret]
  by_cases hd : A.rows_ ≠ B.rows_ ∨ A.cols_ ≠ B.cols_
  · simp only [Stmt.seq, Stmt.read, hd, if_true, Stmt.raise]
    trivial
  · cases hc : Matrix.ctor A.rows_ A.cols_ with
    | ok r =>
      have h1 := Matrix.operator_add_loop_frame A.data_.length 0 ⟨A, B, some r⟩
      simp only [Stmt.seq, Stmt.read, hd, if_false, Stmt.lift, hc, Stmt.write]
      generalize Stmt.loop Matrix.operator_add_body 0 A.data_.length ⟨A, B, some r⟩ = p at h1
      obtain ⟨s, o⟩ := p
      simp only at h1
      cases o with
      | ok u =>
        simp only
        cases s.result <;> exact h1
      | thrown e => exact h1
      | undefined => exact h1
    | thrown e =>
      simp only [Stmt.seq, Stmt.read, hd, if_false, Stmt.lift, hc]
      trivial
    | undefined =>
      simp only [Stmt.seq, Stmt.read, hd, if_false, Stmt.lift, hc]
      trivial

/-- The statement-level loop of `operator+` computes what the functional loop computes on the
buffer of `result`. -/
theorem Matrix.operator_add_loop_eq :
    ∀ (k i : Nat) (f : AddFrame) (res : Matrix), f.result = some res →
      match for_loop (fun i d => do
          let x ← vec_get f.self.data_ i
          let y ← vec_get f.other.data_ i
          vec_set d i (x + y)) i k res.data_ with
      | .ok d => Stmt.loop Matrix.operator_add_body i k f
          = ({ f with result := some { res with data_ := d } }, .ok ())
      | .thrown e => (Stmt.loop Matrix.operator_add_body i k f).2 = .thrown e
      | .undefined => (Stmt.loop Matrix.operator_add_body i k f).2 = .undefined := by
  intro k
  induction k with
  | zero =>
    intro i f res hres
    simp only [for_loop, Stmt.loop, Stmt.ret]
    cases f
    simp only at hres
    subst hres
    rfl
  | succ k ih =>
    intro i f res hres
    simp only [for_loop, Stmt.loop, Stmt.seq, Matrix.operator_add_body_eq f res i hres]
    cases hE : (do
        let x ← vec_get f.self.data_ i
        let y ← vec_get f.other.data_ i
        vec_set res.data_ i (x + y) : Outcome (List F64)) with
    | ok d =>
      simp only
      exact ih (i + 1) { f with result := some { res with data_ := d } }
        { res with data_ := d } rfl
    | thrown e => rfl
    | undefined => rfl

/-- The outcome of the statements of `operator+` is the outcome of `operator_add`. -/
theorem Matrix.operator_add_stmt_outcome (A B : Matrix) :
    (Matrix.operator_add_stmt ⟨A, B, none⟩).2 = A.operator_add B := by
  unfold Matrix.operator_add_stmt Matrix.operator_add
  simp only [Stmt.bind_eq_seq, Stmt.pure_eq_ret]
  by_cases hd : A.rows_ ≠ B.rows_ ∨ A.cols_ ≠ B.cols_
  · simp only [Stmt.seq, Stmt.read, hd, if_true, Stmt.raise]
  · cases hc : Matrix.ctor A.rows_ A.cols_ with
    | ok r =>
      have h1 := Matrix.operator_add_loop_eq A.data_.length 0 ⟨A, B, some r⟩ r rfl
      simp only [Stmt.seq, Stmt.read, hd, if_false, Stmt.lift, hc, Stmt.write]
      simp only at h1
      cases hl : for_loop (fun i d => do
          let x ← vec_get A.data_ i
          let y ← vec_get B.data_ i
          vec_set d i (x + y)) 0 A.data_.length r.data_ with
      | ok d =>
        rw [hl] at h1
        simp only at h1
        rw [h1]
        rfl
      | thrown e =>
        rw [hl] at h1
        simp only at h1
        generalize Stmt.loop Matrix.operator_add_body 0 A.data_.length ⟨A, B, some r⟩ = p at h1
        obtain ⟨s, o⟩ := p
        simp only at h1
        subst h1
        rfl
      | undefined =>
        rw [hl] at h1
        simp only at h1
        generalize Stmt.loop Matrix.operator_add_body 0 A.data_.length ⟨A, B, some r⟩ = p at h1
        obtain ⟨s, o⟩ := p
        simp only at h1
        subst h1
        rfl
    | thrown e => simp only [Stmt.seq, Stmt.read, hd, if_false, Stmt.lift, hc]
    | undefined => simp only [Stmt.seq, Stmt.read, hd, if_false, Stmt.lift, hc]

/-- When the reservation is within `max_size()` the nested-row constructor is `of_rows`. -/
theorem Matrix.ctor_rows_eq_of_rows (R : List (List F64))
    (h : (R.length * (R.headD []).length) % SIZE_MOD ≤ VEC_MAX_SIZE) :
    Matrix.ctor_rows R = Matrix.of_rows R := by
  rw [Matrix.ctor_rows_eq]
  by_cases hR : R = []
  · subst hR
    rfl
  · rw [if_neg hR, if_neg (by omega)]

/-- The dimensions `2^32 x 2^32` are accepted: their `size_t` product is `0`. -/
theorem Matrix.ctor_wrapped :
    Matrix.ctor (2 ^ 32) (2 ^ 32) = .ok (Matrix.of_dims (2 ^ 32) (2 ^ 32)) := by
  decide

/-- The exceptions that can leave the nested-row constructor. -/
theorem Matrix.ctor_rows_thrown (R : List (List F64)) (e : Exn)
    (h : Matrix.ctor_rows R = .thrown e) :
    e = .invalid_argument "Matrix cannot be empty" ∨ e = .length_error "vector::reserve" ∨
      e = .invalid_argument "All rows must have the same size" := by
  rw [Matrix.ctor_rows_eq] at h
  split_ifs at h with h1 h2
  · injection h with h3
    exact Or.inl h3.symm
  · injection h with h3
    exact Or.inr (Or.inl h3.symm)
  · cases R with
    | nil => exact absurd rfl h1
    | cons row0 rest =>
      rw [Matrix.of_rows_cons] at h
      split_ifs at h
      injection h with h3
      exact Or.inr (Or.inr h3.symm)

/-! ## Claims -/

/-- C1: for equal-length vectors `add_vectors(a, b)` returns a vector of the same length whose
element `i` is `a[i] + b[i]`; in particular `add_vectors([1,2,3],[4,5,6]) = [5,7,9]`. -/
theorem add_vectors_elementwise (a b : List F64) (h : a.length = b.length) :
    ∃ r, add_vectors a b = .ok r ∧ r.length = a.length ∧
      ∀ (i : Nat) (ha : i < a.length) (hb : i < b.length),
        r[i]? = some (a.get ⟨i, ha⟩ + b.get ⟨i, hb⟩) := by
  refine ⟨_, add_vectors_eq_zipWith a b h, by simp [h], ?_⟩
  intro i ha hb
  simp [List.getElem?_zipWith, List.getElem?_eq_getElem ha, List.getElem?_eq_getElem hb]

theorem add_vectors_elementwise_witness :
    add_vectors [1, 2, 3] [4, 5, 6] = .ok [5, 7, 9] ∧
    ∃ r, add_vectors [1, 2, 3] [4, 5, 6] = .ok r ∧ r.length = 3 ∧
      ∀ (i : Nat) (ha : i < 3) (hb : i < 3),
        r[i]? = some (([1, 2, 3] : List F64).get ⟨i, ha⟩ + ([4, 5, 6] : List F64).get ⟨i, hb⟩) :=
  ⟨by decide, add_vectors_elementwise [1, 2, 3] [4, 5, 6] rfl⟩

/-- C2: `add_vectors(a, b)` throws `std::invalid_argument` exactly when the lengths differ and
returns otherwise; `dot_product(a, b)` throws the same exception under the same condition. -/
theorem vector_ops_fail_iff_size_mismatch (a b : List F64) :
    (add_vectors a b = .thrown (.invalid_argument "Vectors must have the same size")
        ↔ a.length ≠ b.length) ∧
    ((∃ r, add_vectors a b = .ok r) ↔ a.length = b.length) ∧
    (dot_product a b = .thrown (.invalid_argument "Vectors must have the same size")
        ↔ a.length ≠ b.length) ∧
    ((∃ d, dot_product a b = .ok d) ↔ a.length = b.length) := by
  by_cases h : a.length = b.length
  · have h1 := add_vectors_eq_zipWith a b h
    have h2 := dot_product_eq_foldl a b h
    simp [h1, h2, h]
  · have h1 : add_vectors a b = .thrown (.invalid_argument "Vectors must have the same size") := by
      simp [add_vectors, h]
    have h2 : dot_product a b = .thrown (.invalid_argument "Vectors must have the same size") := by
      simp [dot_product, h]
    simp [h1, h2, h]

theorem vector_ops_fail_iff_size_mismatch_witness :
    add_vectors [1, 2] [3, 4, 5] = .thrown (.invalid_argument "Vectors must have the same size") :=
  (vector_ops_fail_iff_size_mismatch [1, 2] [3, 4, 5]).1.mpr (by decide)

/-- C3: for equal-length vectors `dot_product(a, b)` returns the sum of the products
`a[i] * b[i]`, accumulated from `0.0` in index order; `dot_product([], [])` is `0.0`. -/
theorem dot_product_eq_sum (a b : List F64) (h : a.length = b.length) :
    dot_product a b = .ok ((List.zipWith (· * ·) a b).foldl (· + ·) F64.zero) ∧
    dot_product [] [] = .ok F64.zero :=
  ⟨dot_product_eq_foldl a b h, rfl⟩

theorem dot_product_eq_sum_witness :
    dot_product [1, 2, 3] [4, 5, 6] = .ok 32 ∧
    (dot_product [1, 2, 3] [4, 5, 6]
        = .ok ((List.zipWith (· * ·) [1, 2, 3] [4, 5, 6]).foldl (· + ·) F64.zero) ∧
      dot_product [] [] = .ok F64.zero) :=
  ⟨by decide, dot_product_eq_sum [1, 2, 3] [4, 5, 6] rfl⟩

/-- C4: for equal-length vectors `dot_product(a, b)` and `dot_product(b, a)` return the same
double; the IEEE comparison `==` of the two results is true unless that double is NaN. -/
theorem dot_product_comm (a b : List F64) (h : a.length = b.length) :
    ∃ d, dot_product a b = .ok d ∧ dot_product b a = .ok d ∧
      (d ≠ F64.nan → F64.eq d d = true) := by
  refine ⟨_, dot_product_eq_foldl a b h, ?_, F64.eq_self _⟩
  rw [dot_product_eq_foldl b a h.symm, List.zipWith_comm]
  simp only [F64.mul_comm]

theorem dot_product_comm_witness :
    ∃ d, dot_product [1, 2, 3] [4, 5, 6] = .ok d ∧ dot_product [4, 5, 6] [1, 2, 3] = .ok d ∧
      (d ≠ F64.nan → F64.eq d d = true) :=
  dot_product_comm [1, 2, 3] [4, 5, 6] rfl

/-- C5 as stated fails: with a NaN element the norm is NaN, which is not `>= 0`; and the norm of
the one-element vector `[2^-600]` is `0` although the element is not `0` (its square
underflows). -/
theorem vector_norm_counterexample :
    F64.le 0 (vector_norm [F64.nan]) = false ∧
    (F64.eq (vector_norm [F64.fin false (2 ^ 52) (-652)]) 0 = true ∧
      F64.eq (F64.fin false (2 ^ 52) (-652)) 0 = false) := by
  decide

/-- C5 (amended): `vector_norm(v)` is total; it is `>= 0` exactly when no element is NaN;
it is `== 0` when every element is `0`; and when it is `== 0` the square `x * x` of every
element underflows to `0`. -/
theorem vector_norm_sign_and_zero (v : List F64) :
    (F64.le 0 (vector_norm v) = true ↔ ∀ x ∈ v, x ≠ F64.nan) ∧
    ((∀ x ∈ v, F64.eq x 0 = true) → F64.eq (vector_norm v) 0 = true) ∧
    (F64.eq (vector_norm v) 0 = true → ∀ x ∈ v, F64.eq (x * x) 0 = true) := by
  refine ⟨⟨fun h x hx hnan => ?_, fun h => ?_⟩, fun h => ?_, fun h => ?_⟩
  · subst hnan
    unfold vector_norm at h
    rw [sum_squares_of_nan_mem v hx] at h
    exact absurd h (by decide)
  · exact F64.le_zero_of_nonneg _ (F64.sqrt_nonneg _ (sum_squares_nonneg v _ F64.nonneg_zero h))
  · unfold vector_norm
    rw [sum_squares_zero v h]
    decide
  · exact (sum_squares_eq_zero_inv v _ F64.accum_zero
      (F64.sqrt_eq_zero_inv _ (sum_squares_accum v _ F64.accum_zero) h)).2

theorem vector_norm_sign_and_zero_witness :
    vector_norm [3, 4] = 5 ∧ F64.le 0 (vector_norm [3, 4]) = true ∧
      F64.eq (vector_norm [0, 0]) 0 = true :=
  ⟨by decide, (vector_norm_sign_and_zero [3, 4]).1.mpr (by decide),
    (vector_norm_sign_and_zero [0, 0]).2.1 (by decide)⟩

/-- C7: for non-empty rectangular nested rows `R`, `Matrix(R)` succeeds with
`rows() = R.length`, `cols() = R[0].length`, and `to_vector()` is `R[0] ++ R[1] ++ ...`. -/
theorem of_rows_to_vector (R : List (List F64)) (hne : R ≠ [])
    (hrect : ∀ row ∈ R, row.length = (R.headD []).length) :
    ∃ M, Matrix.of_rows R = .ok M ∧ M.rows = R.length ∧ M.cols = (R.headD []).length ∧
      M.to_vector = R.flatten := by
  cases R with
  | nil => exact absurd rfl hne
  | cons row0 rest =>
    have h : ∀ row ∈ rest, row.length = row0.length :=
      fun row hrow => hrect row (List.mem_cons_of_mem _ hrow)
    rw [Matrix.of_rows_cons, if_pos h]
    exact ⟨_, rfl, rfl, rfl, rfl⟩

theorem of_rows_to_vector_witness :
    ∃ M, Matrix.of_rows [[1, 2], [3, 4]] = .ok M ∧ M.rows = 2 ∧ M.cols = 2 ∧
      M.to_vector = [1, 2, 3, 4] :=
  of_rows_to_vector [[1, 2], [3, 4]] (by decide) (by decide)

/-- C8: for non-empty rectangular nested rows `R` (whose flattening fits a vector) and
`i < R.length`, `j < R[0].length`, `Matrix(R).at(i, j)` returns `R[i][j]`. -/
theorem of_rows_at (R : List (List F64))
    (hrect : ∀ row ∈ R, row.length = (R.headD []).length)
    (hfit : R.length * (R.headD []).length < SIZE_MOD)
    (i j : Nat) (hi : i < R.length) (hj : j < (R.headD []).length) :
    ∃ M, Matrix.of_rows R = .ok M ∧
      ∃ row x, R[i]? = some row ∧ row[j]? = some x ∧ M.at_const i j = .ok x := by
  cases R with
  | nil => simp at hi
  | cons row0 rest =>
    have h : ∀ row ∈ rest, row.length = row0.length :=
      fun row hrow => hrect row (List.mem_cons_of_mem _ hrow)
    rw [Matrix.of_rows_cons, if_pos h]
    refine ⟨_, rfl, (row0 :: rest).get ⟨i, hi⟩, ?_⟩
    have hrow : (row0 :: rest)[i]? = some ((row0 :: rest).get ⟨i, hi⟩) :=
      List.getElem?_eq_getElem hi
    have hlen : ((row0 :: rest).get ⟨i, hi⟩).length = row0.length :=
      hrect _ (List.get_mem _ _ _)
    simp only [List.headD_cons] at hj hfit hrect
    have hj1 : j < ((row0 :: rest).get ⟨i, hi⟩).length := by omega
    refine ⟨((row0 :: rest).get ⟨i, hi⟩).get ⟨j, hj1⟩, hrow, List.getElem?_eq_getElem hj1, ?_⟩
    have hlt := index_lt_of_lt (row0 :: rest).length row0.length i j hi hj
    rw [Matrix.at_const_of_lt _ i j (by simpa using hi) hj]
    simp only [Nat.mod_eq_of_lt (lt_trans hlt hfit)]
    rw [vec_get_eq_ok_iff, flatten_getElem_row_major row0.length (row0 :: rest) hrect i j _ hrow hj]
    exact List.getElem?_eq_getElem hj1

theorem of_rows_at_witness :
    ((Matrix.of_rows [[1, 2], [3, 4]]).bind (fun M => M.at_const 0 0) = .ok 1 ∧
      (Matrix.of_rows [[1, 2], [3, 4]]).bind (fun M => M.at_const 1 1) = .ok 4) ∧
    ∃ M, Matrix.of_rows [[1, 2], [3, 4]] = .ok M ∧
      ∃ row x, ([[1, 2], [3, 4]] : List (List F64))[1]? = some row ∧ row[1]? = some x ∧
        M.at_const 1 1 = .ok x :=
  ⟨by decide, of_rows_at [[1, 2], [3, 4]] (by decide) (by decide) 1 1 (by decide) (by decide)⟩

/-- C9: both forms of `at(i, j)` throw `std::out_of_range` exactly when `i >= rows()` or
`j >= cols()`; in particular `Matrix(2,2).at(2,0)` throws. -/
theorem at_throws_iff_out_of_range :
    (∀ (M : Matrix) (i j : Nat) (v : F64),
      (M.at_const i j = .thrown (.out_of_range "Matrix index out of range")
        ↔ (i ≥ M.rows ∨ j ≥ M.cols)) ∧
      (M.at_ref i j = .thrown (.out_of_range "Matrix index out of range")
        ↔ (i ≥ M.rows ∨ j ≥ M.cols)) ∧
      (M.at_assign i j v = .thrown (.out_of_range "Matrix index out of range")
        ↔ (i ≥ M.rows ∨ j ≥ M.cols))) ∧
    (Matrix.of_dims 2 2).at_const 2 0 = .thrown (.out_of_range "Matrix index out of range") := by
  refine ⟨fun M i j v => ?_, by decide⟩
  by_cases h : i ≥ M.rows_ ∨ j ≥ M.cols_
  · simp [Matrix.at_const, Matrix.at_ref, Matrix.at_assign, Matrix.rows, Matrix.cols, h]
  · simp only [Matrix.at_const, Matrix.at_ref, Matrix.at_assign, Matrix.rows, Matrix.cols, h,
      if_false, iff_false]
    refine ⟨?_, ?_, ?_⟩
    · unfold vec_get
      cases M.data_[(i * M.cols_ + j) % SIZE_MOD]? <;> simp
    · split_ifs <;> simp
    · split_ifs <;> simp

/-- C17: `divide(x)` throws `std::invalid_argument` exactly when `x == 0`, and then the value
is still `v`; otherwise the value becomes `v / x` and the returned reference is the same
calculator. -/
theorem divide_spec (c : Calculator) (x : F64) :
    ((c.divide x).2 = .thrown (.invalid_argument "Cannot divide by zero")
        ↔ F64.eq x 0 = true) ∧
    (F64.eq x 0 = true → (c.divide x).1.result = c.result) ∧
    (F64.eq x 0 = false →
      (c.divide x).1.result = c.result / x ∧ (c.divide x).2 = .ok (c.divide x).1) := by
  unfold Calculator.divide Calculator.result
  by_cases h : F64.eq x 0 = true
  · simp [h]
  · simp [h]

theorem divide_spec_witness :
    (((Calculator.mk 0).add 10).divide 0).2
        = .thrown (.invalid_argument "Cannot divide by zero") ∧
    (((Calculator.mk 0).add 10).divide 0).1.result = 10 ∧
    (((Calculator.mk 0).add 20).divide 4).1.result = 5 :=
  ⟨(divide_spec ((Calculator.mk 0).add 10) 0).1.mpr (by decide),
    ((divide_spec ((Calculator.mk 0).add 10) 0).2.1 (by decide)).trans (by decide),
    ((divide_spec ((Calculator.mk 0).add 20) 4).2.2 (by decide)).1.trans (by decide)⟩

/-- C18: `calculate_mean` is total; it returns `0.0` for the empty vector and otherwise the
sum of the elements (accumulated from `0.0` in order) divided by their number. -/
theorem calculate_mean_spec (values : List F64) :
    calculate_mean [] = F64.zero ∧
    (values ≠ [] →
      calculate_mean values = (values.foldl (· + ·) F64.zero) / F64.ofNat values.length) := by
  refine ⟨rfl, fun h => ?_⟩
  cases values with
  | nil => exact absurd rfl h
  | cons x rest => simp [calculate_mean, accumulate_eq_foldl]

theorem calculate_mean_spec_witness :
    calculate_mean [1, 2, 3, 4, 5] = 3 ∧ calculate_mean [42] = 42 ∧ calculate_mean [] = 0 ∧
    calculate_mean [1, 2, 3, 4, 5]
      = (([1, 2, 3, 4, 5] : List F64).foldl (· + ·) F64.zero) / F64.ofNat 5 :=
  ⟨by decide, by decide, by decide, (calculate_mean_spec [1, 2, 3, 4, 5]).2 (by decide)⟩

/-- C19: for a matrix with `data.length = rows * cols`, the write `at(i, j) = v` with
`i < rows()`, `j < cols()` makes `at(i, j)` return `v`, leaves every other entry and the
shape unchanged. -/
theorem at_assign_point_update (M : Matrix) (hM : M.shape_ok) (i j : Nat)
    (hi : i < M.rows) (hj : j < M.cols) (v : F64) :
    ∃ M1, M.at_assign i j v = .ok M1 ∧ M.at_assign_state i j v = (M1, .ok ()) ∧
      M1.at_const i j = .ok v ∧
      (∀ i1 j1, i1 < M.rows → j1 < M.cols → (i1, j1) ≠ (i, j) →
        M1.at_const i1 j1 = M.at_const i1 j1) ∧
      M1.rows = M.rows ∧ M1.cols = M.cols := by
  simp only [Matrix.rows, Matrix.cols] at hi hj ⊢
  obtain ⟨h1, h2⟩ := Matrix.offset_of_shape_ok M hM i j hi hj
  have hb : ¬ (i ≥ M.rows_ ∨ j ≥ M.cols_) := by omega
  refine ⟨_, Matrix.at_assign_of_shape_ok M hM i j hi hj v, ?_, ?_, ?_, rfl, rfl⟩
  · simp [Matrix.at_assign_state, Matrix.at_ref, hb, h1, h2]
  · rw [Matrix.at_const_of_lt { M with data_ := M.data_.set (i * M.cols_ + j) v } i j hi hj]
    simp only [h1]
    rw [vec_get_eq_ok_iff]
    simp [List.getElem?_set, h2]
  · intro i1 j1 hi1 hj1 hne
    obtain ⟨h3, _⟩ := Matrix.offset_of_shape_ok M hM i1 j1 hi1 hj1
    rw [Matrix.at_const_of_lt { M with data_ := M.data_.set (i * M.cols_ + j) v } i1 j1 hi1 hj1,
      Matrix.at_const_of_lt M i1 j1 hi1 hj1]
    simp only [h3]
    have h4 : i * M.cols_ + j ≠ i1 * M.cols_ + j1 := by
      intro h5
      obtain ⟨h6, h7⟩ := offset_injective M.cols_ i j i1 j1 hj hj1 h5
      exact hne (by rw [h6, h7])
    simp [vec_get, List.getElem?_set, h4]

theorem at_assign_point_update_witness :
    ∃ M1, (Matrix.mk 2 2 [1, 2, 3, 4]).at_assign 0 1 9 = .ok M1 ∧
      (Matrix.mk 2 2 [1, 2, 3, 4]).at_assign_state 0 1 9 = (M1, .ok ()) ∧
      M1.at_const 0 1 = .ok 9 ∧
      (∀ i1 j1, i1 < 2 → j1 < 2 → (i1, j1) ≠ (0, 1) →
        M1.at_const i1 j1 = (Matrix.mk 2 2 [1, 2, 3, 4]).at_const i1 j1) ∧
      M1.rows = 2 ∧ M1.cols = 2 :=
  at_assign_point_update (Matrix.mk 2 2 [1, 2, 3, 4]) (by decide) 0 1 (by decide) (by decide) 9

/-- C11 at `M = Matrix(2^32, 2^32)`: the `size_t` product `rows * cols` wraps to `0`, so `M`
and `M + M` have empty buffers; `M + M` succeeds, `(0, 0)` passes the bounds check, and both
`(M + M).at(0, 0)` and `M.at(0, 0)` read outside the buffer instead of returning doubles. -/
theorem add_self_on_wrapped_dims :
    (Matrix.of_dims (2 ^ 32) (2 ^ 32)).operator_add (Matrix.of_dims (2 ^ 32) (2 ^ 32))
      = .ok (Matrix.of_dims (2 ^ 32) (2 ^ 32)) ∧
    (0 < (Matrix.of_dims (2 ^ 32) (2 ^ 32)).rows ∧ 0 < (Matrix.of_dims (2 ^ 32) (2 ^ 32)).cols) ∧
    (Matrix.of_dims (2 ^ 32) (2 ^ 32)).at_const 0 0 = .undefined := by
  decide

/-- C15 at `Matrix(2^32, 2^32)`: `rows() * cols()` is `2^64` but the buffer has
`(2^32 * 2^32) mod 2^64 = 0` elements. -/
theorem shape_invariant_on_wrapped_dims :
    (Matrix.of_dims (2 ^ 32) (2 ^ 32)).data_.length = 0 ∧
    (Matrix.of_dims (2 ^ 32) (2 ^ 32)).rows * (Matrix.of_dims (2 ^ 32) (2 ^ 32)).cols = 2 ^ 64 ∧
    ¬ (Matrix.of_dims (2 ^ 32) (2 ^ 32)).shape_ok := by
  decide

/-- C20 at `Matrix(2^32, 2^32)`, `i = j = 0`: the index passes the bounds check, the offset
`0 * cols + 0 = 0` is not below `data.length = 0`, and both the read and the write through
`at(0, 0)` fall outside the buffer. -/
theorem checked_access_on_wrapped_dims :
    (0 < (Matrix.of_dims (2 ^ 32) (2 ^ 32)).rows ∧ 0 < (Matrix.of_dims (2 ^ 32) (2 ^ 32)).cols) ∧
    ¬ ((0 * (Matrix.of_dims (2 ^ 32) (2 ^ 32)).cols + 0) % SIZE_MOD
        < (Matrix.of_dims (2 ^ 32) (2 ^ 32)).data_.length) ∧
    (Matrix.of_dims (2 ^ 32) (2 ^ 32)).at_ref 0 0 = .undefined ∧
    ((Matrix.of_dims (2 ^ 32) (2 ^ 32)).at_assign_state 0 0 1).2 = .undefined := by
  decide

/-- C6 as stated fails: for the ragged input of one row of `2^30` doubles followed by `2^30`
empty rows, the reservation `data_.reserve(rows_ * cols_)` asks for `(2^30 + 1) * 2^30`
elements, more than `max_size()`, and throws `std::length_error` before any row is checked,
although an empty row differs in length from the first row. -/
theorem ctor_rows_counterexample :
    Matrix.ctor_rows (List.replicate (2 ^ 30) (0 : F64) :: List.replicate (2 ^ 30) [])
      = .thrown (.length_error "vector::reserve") ∧
    (([] : List F64) ∈ List.replicate (2 ^ 30) (0 : F64) :: List.replicate (2 ^ 30) [] ∧
      ([] : List F64).length ≠ (List.replicate (2 ^ 30) (0 : F64)).length) := by
  refine ⟨?_, List.mem_cons_of_mem _ (List.mem_replicate.mpr ⟨by decide, rfl⟩), ?_⟩
  · rw [Matrix.ctor_rows_eq, if_neg (List.cons_ne_nil _ _), List.headD_cons, List.length_cons,
      List.length_replicate, List.length_replicate]
    exact if_pos (by decide)
  · rw [List.length_replicate]
    decide

/-- C6 (amended): `Matrix(R)` throws "Matrix cannot be empty" exactly when `R` has no rows;
when the `size_t` product `R.length * R[0].length` is at most `max_size()` it throws
"All rows must have the same size" exactly when some row is not as long as the first row and
succeeds in every other case; when `R` is non-empty and the product exceeds `max_size()`
the reservation throws `std::length_error`. -/
theorem ctor_rows_failure_modes (R : List (List F64)) :
    (Matrix.ctor_rows R = .thrown (.invalid_argument "Matrix cannot be empty") ↔ R = []) ∧
    ((R.length * (R.headD []).length) % SIZE_MOD ≤ VEC_MAX_SIZE →
      (Matrix.ctor_rows R = .thrown (.invalid_argument "All rows must have the same size")
          ↔ ∃ row ∈ R, row.length ≠ (R.headD []).length) ∧
      ((∃ M, Matrix.ctor_rows R = .ok M)
          ↔ R ≠ [] ∧ ∀ row ∈ R, row.length = (R.headD []).length)) ∧
    (R ≠ [] → VEC_MAX_SIZE < (R.length * (R.headD []).length) % SIZE_MOD →
      Matrix.ctor_rows R = .thrown (.length_error "vector::reserve")) := by
  obtain ⟨h1, h2, h3⟩ := of_rows_failure_modes R
  rw [Matrix.ctor_rows_eq]
  by_cases hR : R = []
  · subst hR
    simp
  · rw [if_neg hR]
    by_cases hmax : VEC_MAX_SIZE < (R.length * (R.headD []).length) % SIZE_MOD
    · rw [if_pos hmax]
      refine ⟨by simp [hR], fun h => absurd hmax (by omega), fun _ _ => rfl⟩
    · rw [if_neg hmax]
      exact ⟨h1, fun _ => ⟨h2, h3⟩, fun _ h => absurd h hmax⟩

theorem ctor_rows_failure_modes_witness :
    Matrix.ctor_rows [] = .thrown (.invalid_argument "Matrix cannot be empty") ∧
    Matrix.ctor_rows [[1, 2], [3]]
      = .thrown (.invalid_argument "All rows must have the same size") ∧
    ∃ M, Matrix.ctor_rows [[1, 2], [3, 4]] = .ok M :=
  ⟨(ctor_rows_failure_modes []).1.mpr rfl,
    ((ctor_rows_failure_modes [[1, 2], [3]]).2.1 (by decide)).1.mpr ⟨[3], by decide, by decide⟩,
    ((ctor_rows_failure_modes [[1, 2], [3, 4]]).2.1 (by decide)).2.mpr ⟨by decide, by decide⟩⟩

/-- C10 at `A = B = Matrix(2^32, 2^32)`: the constructor succeeds with an empty buffer (the
`size_t` product wraps to `0`), the shapes agree, `A + B` succeeds with `rows() = cols() =
2^32`, `(0, 0)` passes the bounds check, and `(A + B).at(0, 0)` reads outside the buffer
instead of returning `A.at(0, 0) + B.at(0, 0)`. -/
theorem operator_add_on_wrapped_dims :
    Matrix.ctor (2 ^ 32) (2 ^ 32) = .ok (Matrix.of_dims (2 ^ 32) (2 ^ 32)) ∧
    ((Matrix.of_dims (2 ^ 32) (2 ^ 32)).operator_add (Matrix.of_dims (2 ^ 32) (2 ^ 32))).bind
        (fun C => .ok (C.rows, C.cols)) = .ok (2 ^ 32, 2 ^ 32) ∧
    ((Matrix.of_dims (2 ^ 32) (2 ^ 32)).operator_add (Matrix.of_dims (2 ^ 32) (2 ^ 32))).bind
        (fun C => C.at_const 0 0) = .undefined := by
  decide

/-- C13 at `M = Matrix(2^32, 2^32)`, `k = 2`: `M * k` succeeds with `rows() = cols() = 2^32`
and an empty buffer, `(0, 0)` passes the bounds check, and `(M * k).at(0, 0)` reads outside
the buffer instead of returning `M.at(0, 0) * k`. -/
theorem operator_mul_on_wrapped_dims :
    Matrix.ctor (2 ^ 32) (2 ^ 32) = .ok (Matrix.of_dims (2 ^ 32) (2 ^ 32)) ∧
    ((Matrix.of_dims (2 ^ 32) (2 ^ 32)).operator_mul 2).bind
        (fun S => .ok (S.rows, S.cols)) = .ok (2 ^ 32, 2 ^ 32) ∧
    ((Matrix.of_dims (2 ^ 32) (2 ^ 32)).operator_mul 2).bind
        (fun S => S.at_const 0 0) = .undefined := by
  decide

/-- C14 as stated fails: `Matrix(2^31, 2^30)` asks for `2^61` elements, more than
`max_size()`, and throws `std::length_error`; `Matrix(2^32, 2^32)` succeeds with
`rows() = cols() = 2^32`, but the `size_t` product wraps to `0`, the buffer is empty and
`at(0, 0)` is an access outside it instead of `0.0`. -/
theorem ctor_counterexample :
    Matrix.ctor (2 ^ 31) (2 ^ 30)
      = .thrown (.length_error "cannot create std::vector larger than max_size()") ∧
    Matrix.ctor (2 ^ 32) (2 ^ 32) = .ok (Matrix.of_dims (2 ^ 32) (2 ^ 32)) ∧
    (Matrix.of_dims (2 ^ 32) (2 ^ 32)).rows = 2 ^ 32 ∧
    (Matrix.of_dims (2 ^ 32) (2 ^ 32)).cols = 2 ^ 32 ∧
    (Matrix.of_dims (2 ^ 32) (2 ^ 32)).at_const 0 0 = .undefined := by
  decide

/-- C14 (amended): for `size_t` values `r`, `c`, zero included, with `r * c` at most
`max_size()`, `Matrix(r, c)` succeeds with `rows() = r`, `cols() = c` and `at(i, j) = 0.0` for
all `i < r`, `j < c`; with `max_size() < r * c < 2^64` it throws `std::length_error`; the
nested-row constructor rejects zero rows. -/
theorem ctor_zero_filled (r c : Nat) :
    (r * c ≤ VEC_MAX_SIZE →
      ∃ M, Matrix.ctor r c = .ok M ∧ M.rows = r ∧ M.cols = c ∧
        ∀ i j, i < r → j < c → M.at_const i j = .ok F64.zero) ∧
    (VEC_MAX_SIZE < r * c → r * c < SIZE_MOD →
      Matrix.ctor r c
        = .thrown (.length_error "cannot create std::vector larger than max_size()")) ∧
    Matrix.ctor_rows [] = .thrown (.invalid_argument "Matrix cannot be empty") := by
  refine ⟨fun h => ?_, Matrix.ctor_of_gt r c, rfl⟩
  have h1 : r * c < SIZE_MOD := lt_of_le_of_lt h (by decide)
  exact ⟨_, Matrix.ctor_of_le r c h, rfl, rfl, (of_dims_zero_filled r c h1).2.2.1⟩

theorem ctor_zero_filled_witness :
    (∃ M, Matrix.ctor 2 3 = .ok M ∧ M.rows = 2 ∧ M.cols = 3 ∧
      ∀ i j, i < 2 → j < 3 → M.at_const i j = .ok F64.zero) ∧
    (∃ M, Matrix.ctor 0 5 = .ok M ∧ M.rows = 0 ∧ M.cols = 5 ∧
      ∀ i j, i < 0 → j < 5 → M.at_const i j = .ok F64.zero) ∧
    Matrix.ctor (2 ^ 31) (2 ^ 30)
      = .thrown (.length_error "cannot create std::vector larger than max_size()") :=
  ⟨(ctor_zero_filled 2 3).1 (by decide), (ctor_zero_filled 0 5).1 (by decide),
    (ctor_zero_filled (2 ^ 31) (2 ^ 30)).2.1 (by decide) (by decide)⟩

/-- C12 as stated fails: for the 1x1 matrices `[[2^53]]`, `[[1]]` and `k = 3` the entry of
`(A + B) * k` is `3 * 2^53` while the entry of `A * k + B * k` is `3 * 2^53 + 4`: the sums
are rounded at different points.  And for `A = B = Matrix(2^32, 2^32)`, whose buffer is empty,
`(A + B) * k` succeeds but its entry `(0, 0)` is read outside the buffer. -/
theorem scale_add_counterexample :
    (Matrix.ctor_rows [[9007199254740992]] = .ok (Matrix.mk 1 1 [9007199254740992]) ∧
      Matrix.ctor_rows [[1]] = .ok (Matrix.mk 1 1 [1]) ∧
      (((Matrix.mk 1 1 [9007199254740992]).operator_add (Matrix.mk 1 1 [1])).bind
          (fun S => S.operator_mul 3)).bind (fun L => L.at_const 0 0)
        = .ok 27021597764222976 ∧
      (((Matrix.mk 1 1 [9007199254740992]).operator_mul 3).bind
          (fun T => ((Matrix.mk 1 1 [1]).operator_mul 3).bind
            (fun U => T.operator_add U))).bind (fun R => R.at_const 0 0)
        = .ok 27021597764222980 ∧
      F64.eq 27021597764222976 27021597764222980 = false) ∧
    (Matrix.ctor (2 ^ 32) (2 ^ 32) = .ok (Matrix.of_dims (2 ^ 32) (2 ^ 32)) ∧
      (((Matrix.of_dims (2 ^ 32) (2 ^ 32)).operator_add (Matrix.of_dims (2 ^ 32) (2 ^ 32))).bind
          (fun S => S.operator_mul 3)).bind (fun L => L.at_const 0 0) = .undefined) := by
  decide

/-- C12 (amended): for well-formed matrices `A`, `B` (`data.length = rows * cols`, at most
`max_size()`) of the same shape and every scalar `k`, `(A + B) * k` and `(A * k) + (B * k)`
both succeed with the shape of `A`; their entries `(i, j)` are `(a + b) * k` and
`a * k + b * k` in double arithmetic, where `a`, `b` are the entries of `A`, `B`. -/
theorem scale_add_entries (A B : Matrix) (hA : A.well_formed) (hB : B.well_formed)
    (hr : A.rows = B.rows) (hc : A.cols = B.cols) (k : F64) :
    ∃ S L T U R, A.operator_add B = .ok S ∧ S.operator_mul k = .ok L ∧
      A.operator_mul k = .ok T ∧ B.operator_mul k = .ok U ∧ T.operator_add U = .ok R ∧
      L.rows = A.rows ∧ L.cols = A.cols ∧ R.rows = A.rows ∧ R.cols = A.cols ∧
      ∀ i j, i < A.rows → j < A.cols →
        ∃ a b, A.at_const i j = .ok a ∧ B.at_const i j = .ok b ∧
          L.at_const i j = .ok ((a + b) * k) ∧ R.at_const i j = .ok (a * k + b * k) := by
  simp only [Matrix.rows, Matrix.cols] at hr hc ⊢
  have hlen : A.data_.length = B.data_.length := by rw [hA.1, hB.1, hr, hc]
  have hS := Matrix.operator_add_of_shape_ok A B hA hB hr hc
  have hS_ok := (Matrix.shape_ok_add A B hA).mpr (le_of_eq hlen)
  have hL := Matrix.operator_mul_of_shape_ok _ hS_ok k
  have hT := Matrix.operator_mul_of_shape_ok A hA k
  have hU := Matrix.operator_mul_of_shape_ok B hB k
  have hR := Matrix.operator_add_of_shape_ok _ _ (Matrix.shape_ok_map A hA (fun x => x * k))
    (Matrix.shape_ok_map B hB (fun x => x * k)) hr hc
  refine ⟨_, _, _, _, _, hS, hL, hT, hU, hR, rfl, rfl, rfl, rfl, ?_⟩
  intro i j hi hj
  obtain ⟨hA1, hA2⟩ := Matrix.offset_of_shape_ok A hA.shape_ok i j hi hj
  obtain ⟨hB1, hB2⟩ := Matrix.offset_of_shape_ok B hB.shape_ok i j (hr ▸ hi) (hc ▸ hj)
  have hB3 : i * A.cols_ + j < B.data_.length := by rw [hc]; exact hB2
  refine ⟨A.data_.get ⟨i * A.cols_ + j, hA2⟩, B.data_.get ⟨i * A.cols_ + j, hB3⟩, ?_, ?_, ?_, ?_⟩
  · rw [Matrix.at_const_of_lt A i j hi hj, hA1]
    exact vec_get_of_lt _ _ hA2
  · rw [Matrix.at_const_of_lt B i j (hr ▸ hi) (hc ▸ hj), hB1]
    simp only [← hc]
    exact vec_get_of_lt _ _ hB3
  · rw [Matrix.at_const_of_lt
      { rows_ := A.rows_, cols_ := A.cols_,
        data_ := (List.zipWith (· + ·) A.data_ B.data_).map (fun x => x * k) } i j hi hj]
    simp only [hA1]
    rw [vec_get_eq_ok_iff, List.getElem?_map, List.getElem?_zipWith,
      List.getElem?_eq_getElem hA2, List.getElem?_eq_getElem hB3]
    rfl
  · rw [Matrix.at_const_of_lt
      { rows_ := A.rows_, cols_ := A.cols_,
        data_ := List.zipWith (· + ·) (A.data_.map (fun x => x * k))
          (B.data_.map (fun x => x * k)) } i j hi hj]
    simp only [hA1]
    rw [vec_get_eq_ok_iff, List.getElem?_zipWith, List.getElem?_map, List.getElem?_map,
      List.getElem?_eq_getElem hA2, List.getElem?_eq_getElem hB3]
    rfl

theorem scale_add_entries_witness :
    ∃ S L T U R, (Matrix.mk 1 2 [1, 2]).operator_add (Matrix.mk 1 2 [3, 4]) = .ok S ∧
      S.operator_mul 2 = .ok L ∧
      (Matrix.mk 1 2 [1, 2]).operator_mul 2 = .ok T ∧
      (Matrix.mk 1 2 [3, 4]).operator_mul 2 = .ok U ∧ T.operator_add U = .ok R ∧
      L.rows = 1 ∧ L.cols = 2 ∧ R.rows = 1 ∧ R.cols = 2 ∧
      ∀ i j, i < 1 → j < 2 →
        ∃ a b, (Matrix.mk 1 2 [1, 2]).at_const i j = .ok a ∧
          (Matrix.mk 1 2 [3, 4]).at_const i j = .ok b ∧
          L.at_const i j = .ok ((a + b) * 2) ∧ R.at_const i j = .ok (a * 2 + b * 2) :=
  scale_add_entries (Matrix.mk 1 2 [1, 2]) (Matrix.mk 1 2 [3, 4]) (by decide) (by decide)
    rfl rfl 2

/-- C16: a write `at(i, j) = v` that throws (always `std::out_of_range`) leaves the matrix as
it was; a failing `A + B` leaves both operands as they were; a failing nested-row
construction yields one of its three exceptions and no matrix, whatever the abandoned object
under construction had become. -/
theorem failure_is_atomic :
    (∀ (M : Matrix) (i j : Nat) (v : F64) (e : Exn),
      (Matrix.assign_stmt i j v M).2 = .thrown e →
        (Matrix.assign_stmt i j v M).1 = M ∧ e = .out_of_range "Matrix index out of range") ∧
    (∀ (A B : Matrix) (e : Exn),
      (Matrix.operator_add_stmt ⟨A, B, none⟩).2 = .thrown e →
        (Matrix.operator_add_stmt ⟨A, B, none⟩).1.self = A ∧
        (Matrix.operator_add_stmt ⟨A, B, none⟩).1.other = B) ∧
    (∀ (R : List (List F64)) (e : Exn),
      (Matrix.ctor_rows_stmt R Matrix.fresh).2 = .thrown e →
        Matrix.ctor_rows R = .thrown e ∧ (∀ M, Matrix.ctor_rows R ≠ .ok M) ∧
        (e = .invalid_argument "Matrix cannot be empty" ∨
          e = .length_error "vector::reserve" ∨
          e = .invalid_argument "All rows must have the same size")) := by
  refine ⟨?_, fun A B e _ => Matrix.operator_add_stmt_frame A B, ?_⟩
  · intro M i j v e h
    rw [Matrix.assign_stmt_eq] at h ⊢
    unfold Matrix.at_assign_state at h ⊢
    unfold Matrix.at_ref at h ⊢
    split_ifs at h ⊢ with h1
    simp only [Outcome.thrown.injEq] at h
    exact ⟨rfl, h.symm⟩
  · intro R e h
    have h1 : Matrix.ctor_rows R = .thrown e := by
      unfold Matrix.ctor_rows
      generalize Matrix.ctor_rows_stmt R Matrix.fresh = p at h
      obtain ⟨s, o⟩ := p
      simp only at h
      subst h
      rfl
    refine ⟨h1, fun M hM => ?_, Matrix.ctor_rows_thrown R e h1⟩
    rw [h1] at hM
    exact Outcome.noConfusion hM

theorem failure_is_atomic_witness :
    (Matrix.assign_stmt 2 0 1 (Matrix.of_dims 2 2)).2
        = .thrown (.out_of_range "Matrix index out of range") ∧
    (Matrix.assign_stmt 2 0 1 (Matrix.of_dims 2 2)).1 = Matrix.of_dims 2 2 ∧
    (Matrix.ctor_rows_stmt [[1, 2], [3]] Matrix.fresh).1 = Matrix.mk 2 2 [1, 2] ∧
    Matrix.ctor_rows [[1, 2], [3]]
      = .thrown (.invalid_argument "All rows must have the same size") :=
  ⟨by decide, (failure_is_atomic.1 (Matrix.of_dims 2 2) 2 0 1
    (.out_of_range "Matrix index out of range") (by decide)).1, by decide,
    (failure_is_atomic.2.2 [[1, 2], [3]]
      (.invalid_argument "All rows must have the same size") (by decide)).1⟩

end myproject
